import Mathlib

/-
Verification of the coordination plane of the blockchain indexer
(work queue with leases, sliding-window rate limiter, retry policy,
idempotent bulk writes) against its natural-language specification.

The definitions below are shallow embeddings of the TypeScript source:
  - Queue.ts     : rate limiter Lua script, watermark Lua script, seed,
                   complete, fail, recoverZombies
  - Fetcher.ts   : retry loop with exponential backoff, transformData
  - Indexer.ts   : worker loop, fetchAndTransform retry wrapper
  - Database.ts  : bulk save with ON CONFLICT handling, chunking
  - init.sql     : table constraints (primary keys, NOT NULL, UNIQUE,
                   foreign keys) that drive the conflict/error behaviour
Timestamps and block heights are Int (JS numbers / bigint); decimal
strings carrying 256-bit integers are modelled as Int; the coordination
store's sorted set, lists and keys are modelled as Lean lists.
-/

/-! ## Rate limiter (sliding-window log), Queue.ts lines 23-49 and 75-89 -/

/-- State of the sorted set at the rate-limit key: the entries are
(score = timestamp, member = unique id) pairs, together with the key's
pending expiry (set by PEXPIRE). -/
structure ZSet where
  entries : List (Int × String)
  pexpireMs : Option Int
deriving DecidableEq

/-- Embedding of the acquireRateLimitToken Lua script: ZREMRANGEBYSCORE
removes every entry with score in [-inf, now - window] (both bounds
inclusive), ZCARD counts the survivors, and if the count is below the
limit the script ZADDs the new (now, unique_id) entry and PEXPIREs the
key to the window; otherwise it returns 0 leaving the trimmed set. -/
def acquireRateLimitToken (windowMs limit now : Int) (uniqueId : String)
    (z : ZSet) : Bool × ZSet :=
  let kept := z.entries.filter (fun e => decide (now - windowMs < e.1))
  if (kept.length : Int) < limit then
    (true, { entries := kept ++ [(now, uniqueId)], pexpireMs := some windowMs })
  else
    (false, { entries := kept, pexpireMs := z.pexpireMs })

/-- Embedding of Queue.acquireToken: invokes the Lua script with the key,
the window, the limit, the current time and a fresh unique id, and
reports whether the result was 1. -/
def acquireToken (limit windowMs now : Int) (uniqueId : String)
    (z : ZSet) : Bool × ZSet :=
  acquireRateLimitToken windowMs limit now uniqueId z

/-- Runs a sequence of acquireToken calls (timestamp, unique id) against
one key, returning the final set and the per-call trace of
(timestamp, admitted) pairs. -/
def runAcquireSeq (limit windowMs : Int) (calls : List (Int × String))
    (z : ZSet) : ZSet × List (Int × Bool) :=
  match calls with
  | [] => (z, [])
  | c :: rest =>
    let r := acquireToken limit windowMs c.1 c.2 z
    let rr := runAcquireSeq limit windowMs rest r.2
    (rr.1, (c.1, r.1) :: rr.2)

/-- Number of admitted calls in a trace whose timestamp lies in the
half-open window (t - W, t]. -/
def admittedInWindow (t W : Int) (trace : List (Int × Bool)) : Nat :=
  trace.countP (fun p => p.2 && decide (t - W < p.1) && decide (p.1 ≤ t))

/-- Number of set entries whose score lies in the window (t - W, t]. -/
def entriesInWindow (t W : Int) (z : ZSet) : Nat :=
  z.entries.countP (fun e => decide (t - W < e.1) && decide (e.1 ≤ t))

/-- Modelled from the claim's words for C2 only: a variant of the script
whose eviction uses the strict bound (score < now - windowMs), which is
what the specification text asserts; compared against the code's
inclusive ZREMRANGEBYSCORE bound. -/
def acquireTokenSpecLt (limit windowMs now : Int) (uniqueId : String)
    (z : ZSet) : Bool × ZSet :=
  let kept := z.entries.filter (fun e => decide (now - windowMs ≤ e.1))
  if (kept.length : Int) < limit then
    (true, { entries := kept ++ [(now, uniqueId)], pexpireMs := some windowMs })
  else
    (false, { entries := kept, pexpireMs := z.pexpireMs })

/-! ## Work queue with leases, Queue.ts lines 91-230 -/

/-- Serialization of a range as in the source: the string from-to. -/
def rangeString (a b : Int) : String := toString a ++ "-" ++ toString b

/-- Lease key for a range string, lock:range:{from-to}. -/
def lockKey (r : String) : String := "lock:range:" ++ r

/-- State of the coordination store used by the queue: the work and
processing lists, the set of existing lease keys, and the two
watermarks (absent when the key is unset). -/
structure QueueState where
  work : List String
  processing : List String
  locks : List String
  lastQueued : Option Int
  lastProcessed : Option Int
deriving DecidableEq

/-- Existence check for a range's lease key (client.exists). -/
def lockExists (q : QueueState) (r : String) : Bool :=
  q.locks.contains (lockKey r)

/-- Embedding of the updateLastProcessedIfHigher Lua script: GET the key;
if it is unset or the new value is strictly greater, SET it; otherwise
leave it alone. -/
def updateLastProcessedIfHigher (newValue : Int) (q : QueueState) : QueueState :=
  match q.lastProcessed with
  | none => { q with lastProcessed := some newValue }
  | some current =>
    if newValue > current then { q with lastProcessed := some newValue } else q

/-- Embedding of Queue.complete: a pipeline of LREM(processing, 1, range)
and DEL(lock), followed by the updateLastProcessedIfHigher script on the
range's upper end. -/
def complete (f t : Int) (q : QueueState) : QueueState :=
  let r := rangeString f t
  updateLastProcessedIfHigher t
    { q with processing := q.processing.erase r,
             locks := q.locks.filter (fun k => k ≠ lockKey r) }

/-- Embedding of Queue.fail: a pipeline of LREM(processing, 1, range),
DEL(lock) and RPUSH(work, range). -/
def fail (f t : Int) (q : QueueState) : QueueState :=
  let r := rangeString f t
  { q with processing := q.processing.erase r,
           locks := q.locks.filter (fun k => k ≠ lockKey r),
           work := q.work ++ [r] }

/-- Loop body of Queue.recoverZombies over the snapshot of the processing
list: for each range whose lease key does not exist, atomically
LREM(processing, 1, range) and RPUSH(work, range). -/
def recoverLoop (snapshot : List String) (q : QueueState) : QueueState :=
  match snapshot with
  | [] => q
  | r :: rest =>
    if lockExists q r then recoverLoop rest q
    else recoverLoop rest
      { q with processing := q.processing.erase r, work := q.work ++ [r] }

/-- Embedding of Queue.recoverZombies: LRANGE the full processing list,
then run the recovery loop over that snapshot. -/
def recoverZombies (q : QueueState) : QueueState :=
  recoverLoop q.processing q

/-- Loop of Queue.addBatches: starting at lo, push ranges of batchSize
blocks (the last clipped to hi) until the start exceeds hi. The fuel
argument makes the TS for-loop structurally recursive; it is irrelevant
as soon as it dominates the number of iterations (batchSize ≥ 1). -/
def addBatchRangesGo (batchSize : Int) : Nat → Int → Int → List (Int × Int)
  | 0, _, _ => []
  | fuel + 1, s, hi =>
    if s ≤ hi then
      (s, min (s + batchSize - 1) hi) :: addBatchRangesGo batchSize fuel (s + batchSize) hi
    else []

/-- Ranges pushed by Queue.addBatches(lo, hi). -/
def addBatchRanges (batchSize lo hi : Int) : List (Int × Int) :=
  addBatchRangesGo batchSize (hi + 1 - lo).toNat lo hi

/-- Embedding of Queue.addBatches: RPUSH each range string to work. -/
def addBatches (batchSize lo hi : Int) (q : QueueState) : QueueState :=
  { q with work := q.work ++
      (addBatchRanges batchSize lo hi).map (fun p => rangeString p.1 p.2) }

/-- Embedding of Queue.seed: start from lastQueued + 1 when set, else
from minBlockNumber; return unchanged when start exceeds the target;
otherwise addBatches(start, target) then SET lastQueued := target. -/
def seed (batchSize minBlockNumber targetBlock : Int) (q : QueueState) : QueueState :=
  let start := match q.lastQueued with
    | some lq => lq + 1
    | none => minBlockNumber
  if start > targetBlock then q
  else { (addBatches batchSize start targetBlock q) with lastQueued := some targetBlock }

/-- Modelled from the claim's words for C5: the pushed ranges partition
[lo, hi] into consecutive inclusive ranges, every range except possibly
the last spanning exactly batchSize blocks and the last at most that,
the first starting at lo and the last ending at hi. -/
def isBatchPartition (batchSize lo hi : Int) (l : List (Int × Int)) : Prop :=
  (∀ p ∈ l, p.1 ≤ p.2 ∧ p.2 ≤ p.1 + batchSize - 1) ∧
  List.Chain' (fun p s => p.2 = p.1 + batchSize - 1 ∧ s.1 = p.2 + 1) l ∧
  l.head?.map Prod.fst = some lo ∧
  (l.getLast?).map Prod.snd = some hi

/-! ## Worker loop control flow, Indexer.ts lines 18-53 -/

/-- Observable events of one iteration of Indexer.start. -/
inductive IterEvent where
  | heartbeatStarted
  | heartbeatStopped
  | completed
  | failed
  | slept (ms : Nat)
deriving DecidableEq

/-- Embedding of one iteration of the worker loop after next() returned
the range [f, t]: the heartbeat interval is started, the range is
processed, and on success the interval is cleared and complete runs;
when processing throws, the catch block runs fail and sleeps 2000 ms --
the source's catch block contains no clearInterval, so no
heartbeatStopped event occurs on that path. -/
def workerIteration (q : QueueState) (f t : Int) (processOk : Bool) :
    QueueState × List IterEvent :=
  if processOk then
    (complete f t q,
     [IterEvent.heartbeatStarted, IterEvent.heartbeatStopped, IterEvent.completed])
  else
    (fail f t q,
     [IterEvent.heartbeatStarted, IterEvent.failed, IterEvent.slept 2000])

/-! ## Retry policy, Fetcher.ts lines 36-53 and Indexer.ts lines 90-109 -/

/-- Result of a TS retry loop body: a value, the implicit undefined
returned when the while-loop exits without an iteration (maxRetries = 0),
or a thrown error. -/
inductive FetchOutcome (α : Type) where
  | ok (v : α)
  | undef
  | thrown
deriving DecidableEq

/-- Result of running a retry wrapper: the outcome, the index after the
last underlying fetch attempt (so calls - start counts attempts), and
the list of backoff sleeps in order. -/
structure RetryResult (α : Type) where
  outcome : FetchOutcome α
  calls : Nat
  sleeps : List Nat
deriving DecidableEq

/-- Embedding of the while-loop of Fetcher.fetch. The oracle gives the
result of the i-th underlying fetchInternal call (none = it threw), and
jitter the i-th Math.floor(Math.random() * 500) draw. The first argument
is the remaining iteration budget maxRetries - attempt; attempt is the
value of the attempt counter before the increment at the top of the
loop. On failure with attempts left the loop sleeps
2 ^ attempt * 500 + jitter (with the incremented attempt) and retries;
on failure of the last attempt it throws. -/
def fetchGo {α : Type} (oracle : Nat → Option α) (jitter : Nat → Nat) :
    Nat → Nat → Nat → RetryResult α
  | 0, _, ctr => ⟨.undef, ctr, []⟩
  | 1, _, ctr =>
    match oracle ctr with
    | some v => ⟨.ok v, ctr + 1, []⟩
    | none => ⟨.thrown, ctr + 1, []⟩
  | rem + 2, attempt, ctr =>
    match oracle ctr with
    | some v => ⟨.ok v, ctr + 1, []⟩
    | none =>
      let d := 2 ^ (attempt + 1) * 500 + jitter ctr
      let r := fetchGo oracle jitter (rem + 1) (attempt + 1) (ctr + 1)
      ⟨r.outcome, r.calls, d :: r.sleeps⟩

/-- Embedding of Fetcher.fetch: the retry loop starting with attempt = 0
and budget maxRetries. -/
def fetcherFetch {α : Type} (oracle : Nat → Option α) (jitter : Nat → Nat)
    (maxRetries ctr : Nat) : RetryResult α :=
  fetchGo oracle jitter maxRetries 0 ctr

/-- Embedding of the while-loop of Indexer.fetchAndTransform: the same
loop shape with its own hardcoded budget, but each attempt runs the
whole Fetcher.fetch (which itself retries maxRetries times); a thrown
inner fetch is caught and retried, any other outcome is returned. -/
def fetchAndTransformGo {α : Type} (oracle : Nat → Option α)
    (jitter jitterOuter : Nat → Nat) (maxRetries : Nat) :
    Nat → Nat → Nat → RetryResult α
  | 0, _, ctr => ⟨.undef, ctr, []⟩
  | rem + 1, attempt, ctr =>
    let r := fetcherFetch oracle jitter maxRetries ctr
    match r.outcome with
    | .thrown =>
      match rem with
      | 0 => ⟨.thrown, r.calls, r.sleeps⟩
      | rem' + 1 =>
        let d := 2 ^ (attempt + 1) * 500 + jitterOuter (attempt + 1)
        let r2 := fetchAndTransformGo oracle jitter jitterOuter maxRetries
          (rem' + 1) (attempt + 1) r.calls
        ⟨r2.outcome, r2.calls, r.sleeps ++ d :: r2.sleeps⟩
    | o => ⟨o, r.calls, r.sleeps⟩

/-- Embedding of Indexer.fetchAndTransform: MAX_RETRIES = 5 attempts of
the whole Fetcher.fetch. -/
def fetchAndTransform {α : Type} (oracle : Nat → Option α)
    (jitter jitterOuter : Nat → Nat) (maxRetries ctr : Nat) : RetryResult α :=
  fetchAndTransformGo oracle jitter jitterOuter maxRetries 5 0 ctr

/-! ## Record transformation, Fetcher.ts transformData (lines 95-180) -/

/-- Conversion bigIntToStr: v!.toString() dereferences null, so a null
or absent value throws a TypeError at runtime; decimal strings are
carried as Int. -/
def bigIntToStr : Option Int → Except String Int
  | some v => .ok v
  | none => .error "TypeError: Cannot read properties of null"

/-- Conversion toDate: new Date(Number(sec) * 1000), an epoch-ms value. -/
def toDate (seconds : Int) : Int := seconds * 1000

/-- Conversion Number(x) applied to a nullable numeric field:
Number(null) is 0. -/
def toNumber (o : Option Int) : Int := o.getD 0

/-- A topics[i] || null access: absent entries and the empty string
(falsy) both become null. -/
def topicAt (topics : List String) (i : Nat) : Option String :=
  match topics.get? i with
  | some s => if s = "" then none else some s
  | none => none

/-- Source-side transaction shape (viem Transaction); fromAddress and
toAddress stand for the JS fields named from and to, both reserved words
here; maxFeePerGas
and maxPriorityFeePerGas are none when the field is absent (legacy
transaction) or null, matching the 'maxFeePerGas' in tx ? .. ?? null
guard. -/
structure TxSrc where
  hash : Option String
  blockHash : Option String
  blockNumber : Option Int
  nonce : Int
  transactionIndex : Option Int
  fromAddress : String
  toAddress : Option String
  value : Int
  gas : Int
  gasPrice : Option Int
  input : String
  v : Int
  r : String
  s : String
  type : Option Int
  maxFeePerGas : Option Int
  maxPriorityFeePerGas : Option Int
deriving DecidableEq

/-- Source-side block shape (viem Block) restricted to the fields
transformData reads; hash, nonce, logsBloom and number are null on
pending blocks. -/
structure BlockSrc where
  hash : Option String
  nonce : Option String
  logsBloom : Option String
  number : Option Int
  parentHash : String
  sha3Uncles : String
  timestamp : Int
  miner : String
  extraData : String
  size : Int
  gasLimit : Int
  gasUsed : Int
  difficulty : Int
  baseFeePerGas : Option Int
  stateRoot : String
  receiptsRoot : String
  transactionsRoot : String
  transactions : List TxSrc
deriving DecidableEq

/-- Source-side log shape (viem Log). -/
structure LogSrc where
  transactionHash : String
  logIndex : Option Int
  transactionIndex : Option Int
  blockHash : String
  blockNumber : Option Int
  address : String
  data : String
  removed : Bool
  topics : List String
deriving DecidableEq

/-- Source-side receipt shape (viem TransactionReceipt). -/
structure ReceiptSrc where
  transactionHash : String
  contractAddress : Option String
  effectiveGasPrice : Int
  status : Int
  cumulativeGasUsed : Int
  logs : List LogSrc
deriving DecidableEq

/-- Row image of the blocks table (types.ts BlockRecord); StringNumber
fields are carried as Int, DBDate as epoch-ms Int. -/
structure BlockRecord where
  number : Int
  hash : String
  parent_hash : String
  nonce : String
  sha3_uncles : String
  timestamp : Int
  miner : String
  extra_data : String
  size : Int
  gas_limit : Int
  gas_used : Int
  difficulty : Int
  base_fee_per_gas : Option Int
  state_root : String
  receipts_root : String
  transactions_root : String
  logs_bloom : String
deriving DecidableEq

/-- Row image of the transactions table (types.ts TransactionRecord);
note that type is declared nullable here while the transactions.type
column is INT NOT NULL in the migration. -/
structure TransactionRecord where
  hash : String
  nonce : Int
  block_hash : String
  block_number : Int
  transaction_index : Int
  from_address : String
  to_address : Option String
  contract_address : Option String
  value : Int
  gas : Int
  gas_price : Int
  effective_gas_price : Option Int
  max_fee_per_gas : Option Int
  max_priority_fee_per_gas : Option Int
  input : String
  type : Option Int
  v : Int
  r : String
  s : String
  block_timestamp : Int
  receipt_status : Option Int
  cumulative_gas_used : Option Int
deriving DecidableEq

/-- Row image of the logs table (types.ts LogRecord). -/
structure LogRecord where
  transaction_hash : String
  log_index : Int
  transaction_index : Int
  block_hash : String
  block_number : Int
  address : String
  data : String
  removed : Bool
  topic0 : Option String
  topic1 : Option String
  topic2 : Option String
  topic3 : Option String
deriving DecidableEq

/-- Receipt lookup map keyed by transaction hash, built with new Map(...)
semantics: a later duplicate key overwrites an earlier one. -/
def lookupReceipt (receipts : List ReceiptSrc) (h : String) : Option ReceiptSrc :=
  receipts.foldl (fun acc rc => if rc.transactionHash = h then some rc else acc) none

/-- Projection of one receipt log into a LogRecord; bigIntToStr on the
nullable blockNumber can throw. -/
def transformLog (log : LogSrc) : Except String LogRecord :=
  match bigIntToStr log.blockNumber with
  | .error e => .error e
  | .ok bn =>
    .ok { transaction_hash := log.transactionHash,
          log_index := toNumber log.logIndex,
          transaction_index := toNumber log.transactionIndex,
          block_hash := log.blockHash,
          block_number := bn,
          address := log.address,
          data := log.data,
          removed := log.removed,
          topic0 := topicAt log.topics 0,
          topic1 := topicAt log.topics 1,
          topic2 := topicAt log.topics 2,
          topic3 := topicAt log.topics 3 }

/-- Body of the per-transaction loop of transformData: assert hash and
blockHash, look up the receipt (missing receipt is an error), then build
the TransactionRecord -- bigIntToStr runs on the nullable blockNumber,
maxFeePerGas and maxPriorityFeePerGas -- and the tx's log records. -/
def transformTx (bh : String) (blockTimestamp : Int)
    (receipts : List ReceiptSrc) (tx : TxSrc) :
    Except String (TransactionRecord × List LogRecord) :=
  match tx.hash, tx.blockHash with
  | some txh, some _ =>
    (match lookupReceipt receipts txh with
     | none => .error ("Missing receipt for tx " ++ txh)
     | some receipt =>
       match bigIntToStr tx.blockNumber with
       | .error e => .error e
       | .ok bn =>
         match bigIntToStr tx.maxFeePerGas, bigIntToStr tx.maxPriorityFeePerGas with
         | .ok mf, .ok mpf =>
           (match receipt.logs.mapM transformLog with
            | .error e => .error e
            | .ok logRecs =>
              .ok ({ hash := txh,
                     nonce := tx.nonce,
                     block_hash := bh,
                     block_number := bn,
                     transaction_index := toNumber tx.transactionIndex,
                     from_address := tx.fromAddress,
                     to_address := tx.toAddress,
                     contract_address := receipt.contractAddress,
                     value := tx.value,
                     gas := tx.gas,
                     gas_price := tx.gasPrice.getD 0,
                     effective_gas_price := some receipt.effectiveGasPrice,
                     max_fee_per_gas := some mf,
                     max_priority_fee_per_gas := some mpf,
                     input := tx.input,
                     type := some (tx.type.getD 0),
                     v := tx.v,
                     r := tx.r,
                     s := tx.s,
                     block_timestamp := toDate blockTimestamp,
                     receipt_status := some receipt.status,
                     cumulative_gas_used := some receipt.cumulativeGasUsed },
                   logRecs))
         | .error e, _ => .error e
         | _, .error e => .error e)
  | _, _ => .error "Assertion Error"

/-- Loop of transformData over block.transactions, pushing each built
transaction record and its log records in order. -/
def transformTxs (bh : String) (blockTimestamp : Int)
    (receipts : List ReceiptSrc) :
    List TxSrc → (List TransactionRecord × List LogRecord) →
    Except String (List TransactionRecord × List LogRecord)
  | [], acc => .ok acc
  | tx :: rest, acc =>
    match transformTx bh blockTimestamp receipts tx with
    | .error e => .error e
    | .ok pr => transformTxs bh blockTimestamp receipts rest
        (acc.1 ++ [pr.1], acc.2 ++ [pr.2].flatten)

/-- Embedding of transformData: assert hash, nonce and logsBloom, build
the block record (baseFeePerGas goes through a truthiness test, so a
zero fee is stored as null), then run the transaction loop. -/
def transformData (block : BlockSrc) (receipts : List ReceiptSrc) :
    Except String (BlockRecord × List TransactionRecord × List LogRecord) :=
  match block.hash, block.nonce, block.logsBloom with
  | some bh, some bn, some bb =>
    (match bigIntToStr block.number with
     | .error e => .error e
     | .ok num =>
       let blockRecord : BlockRecord :=
         { number := num,
           hash := bh,
           parent_hash := block.parentHash,
           nonce := bn,
           sha3_uncles := block.sha3Uncles,
           timestamp := toDate block.timestamp,
           miner := block.miner,
           extra_data := block.extraData,
           size := block.size,
           gas_limit := block.gasLimit,
           gas_used := block.gasUsed,
           difficulty := block.difficulty,
           base_fee_per_gas :=
             (match block.baseFeePerGas with
              | some fee => if fee = 0 then none else some fee
              | none => none),
           state_root := block.stateRoot,
           receipts_root := block.receiptsRoot,
           transactions_root := block.transactionsRoot,
           logs_bloom := bb }
       match transformTxs bh block.timestamp receipts block.transactions ([], []) with
       | .error e => .error e
       | .ok acc => .ok (blockRecord, acc.1, acc.2))
  | _, _, _ => .error "Assertion Error"

/-- Concrete block carrying one legacy (pre-EIP-1559) transaction, used
to exercise transformData. -/
def txLegacy : TxSrc :=
  { hash := some "0xt1", blockHash := some "0xb1", blockNumber := some 1,
    nonce := 0, transactionIndex := some 0, fromAddress := "0xa",
    toAddress := none, value := 0, gas := 21000, gasPrice := some 1,
    input := "0x", v := 27, r := "0xr", s := "0xs",
    type := some 0, maxFeePerGas := none, maxPriorityFeePerGas := none }

/-- Receipt matching txLegacy. -/
def rcptLegacy : ReceiptSrc :=
  { transactionHash := "0xt1", contractAddress := none,
    effectiveGasPrice := 1, status := 1, cumulativeGasUsed := 21000,
    logs := [] }

/-- Block containing txLegacy. -/
def blkLegacy : BlockSrc :=
  { hash := some "0xb1", nonce := some "0x0", logsBloom := some "0x0",
    number := some 1, parentHash := "0xp", sha3Uncles := "0xu",
    timestamp := 1000, miner := "0xm", extraData := "0x", size := 1,
    gasLimit := 30000000, gasUsed := 21000, difficulty := 0,
    baseFeePerGas := some 7, stateRoot := "0xs", receiptsRoot := "0xr",
    transactionsRoot := "0xt", transactions := [txLegacy] }

/-! ## Store write contract, Database.ts and the init.sql constraints -/

/-- Postgres error conditions distinguished by the model: 23502
(not-null violation, what the deliberate number = NULL trick raises, but
also what a null value in any NOT NULL column raises), 23505 (unique
violation, e.g. the blocks.hash UNIQUE constraint) and 23503
(foreign-key violation). -/
inductive PgError where
  | notNullViolation
  | uniqueViolation
  | fkViolation
deriving DecidableEq

/-- Error surfaced by Database.save: the catch block maps code 23502 to
the distinguished ReorgDetected error and rethrows anything else. -/
inductive SaveError where
  | reorgDetected
  | otherError (e : PgError)
deriving DecidableEq

/-- State of the three tables. -/
structure DbState where
  blocks : List BlockRecord
  txs : List TransactionRecord
  logs : List LogRecord
deriving DecidableEq

/-- One row of the blocks INSERT ... ON CONFLICT (number) DO UPDATE SET
number = NULL WHERE blocks.hash IS DISTINCT FROM EXCLUDED.hash: a number
conflict with a different hash triggers the not-null violation, an
equal-hash conflict does nothing; a fresh number must also satisfy the
hash UNIQUE constraint. -/
def insertBlockRow (s : DbState) (b : BlockRecord) : Except PgError DbState :=
  match s.blocks.find? (fun row => row.number == b.number) with
  | some row => if row.hash ≠ b.hash then .error PgError.notNullViolation else .ok s
  | none =>
    if s.blocks.any (fun row => row.hash == b.hash) then
      .error PgError.uniqueViolation
    else .ok { s with blocks := s.blocks ++ [b] }

/-- One row of the transactions INSERT ... ON CONFLICT (hash) DO
NOTHING: a null in the INT NOT NULL type column raises 23502 (checked
when the tuple is formed, before conflict arbitration), a hash conflict
is skipped, and the block_number foreign key must resolve. -/
def insertTxRow (s : DbState) (t : TransactionRecord) : Except PgError DbState :=
  if t.type = none then .error PgError.notNullViolation
  else if s.txs.any (fun row => row.hash == t.hash) then .ok s
  else if s.blocks.any (fun row => row.number == t.block_number) then
    .ok { s with txs := s.txs ++ [t] }
  else .error PgError.fkViolation

/-- One row of the logs INSERT ... ON CONFLICT (transaction_hash,
log_index) DO NOTHING with its two foreign keys. -/
def insertLogRow (s : DbState) (l : LogRecord) : Except PgError DbState :=
  if s.logs.any (fun row => row.transaction_hash == l.transaction_hash
      && row.log_index == l.log_index) then .ok s
  else if s.txs.any (fun row => row.hash == l.transaction_hash) then
    (if s.blocks.any (fun row => row.number == l.block_number) then
      .ok { s with logs := s.logs ++ [l] }
    else .error PgError.fkViolation)
  else .error PgError.fkViolation

/-- Loop of the chunk helper of Database.ts: successive slices of the
given size; the fuel (initially the list length) makes the index loop
structurally recursive and is irrelevant for size ≥ 1. -/
def chunkGo (size : Nat) : Nat → List α → List (List α)
  | 0, _ => []
  | _ + 1, [] => []
  | fuel + 1, a :: l => (a :: l).take size :: chunkGo size fuel ((a :: l).drop size)

/-- The chunk helper: split an array into batches of at most size rows
(an empty array gives no batches). -/
def chunk (l : List α) (size : Nat) : List (List α) :=
  chunkGo size l.length l

/-- Batch size used by Database.save. -/
def BATCH_SIZE : Nat := 1000

/-- Rows of one INSERT statement are processed in UNNEST order; the
first failing row aborts the statement. -/
def insertRows (ins : DbState → ρ → Except PgError DbState) :
    DbState → List ρ → Except PgError DbState
  | s, [] => .ok s
  | s, x :: rest =>
    match ins s x with
    | .error e => .error e
    | .ok s' => insertRows ins s' rest

/-- The per-chunk loop of Database.save for one table. -/
def insertChunks (ins : DbState → ρ → Except PgError DbState) :
    DbState → List (List ρ) → Except PgError DbState
  | s, [] => .ok s
  | s, batch :: rest =>
    match insertRows ins s batch with
    | .error e => .error e
    | .ok s' => insertChunks ins s' rest

/-- Body of the transaction of Database.save: chunked bulk inserts into
blocks, then transactions, then logs. -/
def runSave (s : DbState) (blocks : List BlockRecord)
    (txs : List TransactionRecord) (logs : List LogRecord) :
    Except PgError DbState :=
  match insertChunks insertBlockRow s (chunk blocks BATCH_SIZE) with
  | .error e => .error e
  | .ok s1 =>
    match insertChunks insertTxRow s1 (chunk txs BATCH_SIZE) with
    | .error e => .error e
    | .ok s2 =>
      match insertChunks insertLogRow s2 (chunk logs BATCH_SIZE) with
      | .error e => .error e
      | .ok s3 => .ok s3

/-- Embedding of Database.save: COMMIT keeps the final state; any error
ROLLBACKs to the original state, and the catch block maps a 23502
error to ReorgDetected and rethrows anything else. -/
def save (s : DbState) (blocks : List BlockRecord)
    (txs : List TransactionRecord) (logs : List LogRecord) :
    DbState × Option SaveError :=
  match runSave s blocks txs logs with
  | .ok s' => (s', none)
  | .error PgError.notNullViolation => (s, some SaveError.reorgDetected)
  | .error e => (s, some (SaveError.otherError e))

/-- Blocks of the inserted batch whose number collides with a stored row
carrying a different hash -- the reorg sentinel condition. -/
def collidesDiff (pre : List BlockRecord) (b : BlockRecord) : Bool :=
  pre.any (fun row => row.number == b.number && row.hash != b.hash)

/-- Concrete block row: number 1, hash A. -/
def blockRecA : BlockRecord :=
  { number := 1, hash := "A", parent_hash := "P", nonce := "N",
    sha3_uncles := "U", timestamp := 0, miner := "M", extra_data := "E",
    size := 1, gas_limit := 1, gas_used := 1, difficulty := 0,
    base_fee_per_gas := none, state_root := "S", receipts_root := "R",
    transactions_root := "T", logs_bloom := "L" }

/-- The same block number with a different hash B. -/
def blockRecB : BlockRecord := { blockRecA with hash := "B" }

/-- Transaction record with a null type field, as TransactionRecord
permits, referencing block 1. -/
def txNullType : TransactionRecord :=
  { hash := "t1", nonce := 0, block_hash := "A", block_number := 1,
    transaction_index := 0, from_address := "F", to_address := none,
    contract_address := none, value := 0, gas := 1, gas_price := 1,
    effective_gas_price := none, max_fee_per_gas := none,
    max_priority_fee_per_gas := none, input := "I", type := none,
    v := 1, r := "r", s := "s", block_timestamp := 0,
    receipt_status := none, cumulative_gas_used := none }

/-- Empty store. -/
def emptyDb : DbState := ⟨[], [], []⟩

/-! ## Theorems -/

lemma countP_window_filter (t W now : Int) (l : List (Int × String))
    (hnow : now ≤ t) :
    (l.filter (fun e => decide (now - W < e.1))).countP
        (fun e => decide (t - W < e.1) && decide (e.1 ≤ t))
      = l.countP (fun e => decide (t - W < e.1) && decide (e.1 ≤ t)) := by
  rw [List.countP_filter]
  apply List.countP_congr
  intro a _
  by_cases h1 : t - W < a.1 <;> by_cases h2 : a.1 ≤ t <;>
    simp [h1, h2] <;> omega

lemma admittedInWindow_all_late (L W t : Int) :
    ∀ (calls : List (Int × String)) (z : ZSet),
    (∀ c ∈ calls, t < c.1) →
    admittedInWindow t W (runAcquireSeq L W calls z).2 = 0 := by
  intro calls
  induction calls with
  | nil => intro z _; simp [runAcquireSeq, admittedInWindow]
  | cons c rest ih =>
    intro z h
    have h1 : ¬ (c.1 ≤ t) := not_le.mpr (h c (by simp))
    have h2 := ih (acquireToken L W c.1 c.2 z).2 (fun d hd => h d (by simp [hd]))
    simp only [runAcquireSeq, admittedInWindow, List.countP_cons] at h2 ⊢
    simp [h1, h2]

lemma runAcquireSeq_window_bound (L W t : Int) :
    ∀ (calls : List (Int × String)) (z : ZSet),
    List.Pairwise (· ≤ ·) (calls.map Prod.fst) →
    (admittedInWindow t W (runAcquireSeq L W calls z).2 : Int)
      + entriesInWindow t W z ≤ max L (entriesInWindow t W z) := by
  intro calls
  induction calls with
  | nil =>
    intro z _
    simp only [runAcquireSeq, admittedInWindow, List.countP_nil]
    simpa using le_max_right L (entriesInWindow t W z : Int)
  | cons c rest ih =>
    intro z hp
    obtain ⟨now, uid⟩ := c
    rw [List.map_cons, List.pairwise_cons] at hp
    by_cases hnow : now ≤ t
    · by_cases hadm :
          (((z.entries.filter (fun e => decide (now - W < e.1))).length : Int) < L)
      · -- admitted
        have hstep : acquireToken L W now uid z =
            (true, { entries := z.entries.filter (fun e => decide (now - W < e.1))
                       ++ [(now, uid)],
                     pexpireMs := some W }) := by
          unfold acquireToken acquireRateLimitToken
          simp [hadm]
        have hkeq : entriesInWindow t W z =
            (z.entries.filter (fun e => decide (now - W < e.1))).countP
              (fun e => decide (t - W < e.1) && decide (e.1 ≤ t)) :=
          (countP_window_filter t W now z.entries hnow).symm
        have hzlt : (entriesInWindow t W z : Int) < L := by
          have h1 : entriesInWindow t W z
              ≤ (z.entries.filter (fun e => decide (now - W < e.1))).length := by
            rw [hkeq]; exact List.countP_le_length _
          exact lt_of_le_of_lt (by exact_mod_cast h1) hadm
        have hz1 : entriesInWindow t W
            ⟨z.entries.filter (fun e => decide (now - W < e.1)) ++ [(now, uid)],
              some W⟩
            = entriesInWindow t W z + (if t - W < now then 1 else 0) := by
          unfold entriesInWindow
          simp only [List.countP_append, List.countP_cons, List.countP_nil]
          rw [countP_window_filter t W now z.entries hnow]
          have hd : decide (now ≤ t) = true := by simp [hnow]
          by_cases hw : t - W < now <;> simp [hw, hd]
        have ih' := ih ⟨z.entries.filter (fun e => decide (now - W < e.1))
            ++ [(now, uid)], some W⟩ hp.2
        rw [hz1] at ih'
        simp only [admittedInWindow] at ih'
        simp only [runAcquireSeq, admittedInWindow, List.countP_cons, hstep]
        by_cases hw : t - W < now
        · have hhead : (true && decide (t - W < now) && decide (now ≤ t)) = true := by
            simp [hw, hnow]
          rw [if_pos hw] at ih'
          have hm1 : max L ((entriesInWindow t W z : Int) + 1) = L := by
            apply max_eq_left
            omega
          have hm0 : max L (entriesInWindow t W z : Int) = L :=
            max_eq_left (le_of_lt hzlt)
          push_cast at ih'
          rw [hm1] at ih'
          simp only [hhead, if_true]
          rw [hm0]
          push_cast
          omega
        · have hhead : (true && decide (t - W < now) && decide (now ≤ t)) = false := by
            simp [hw]
          rw [if_neg hw] at ih'
          simp only [hhead]
          rw [if_neg (by simp : ¬ (false = true))]
          simpa using ih'
      · -- rejected: the set only shrinks by the eviction
        have hstep : acquireToken L W now uid z =
            (false, { entries := z.entries.filter (fun e => decide (now - W < e.1)),
                      pexpireMs := z.pexpireMs }) := by
          unfold acquireToken acquireRateLimitToken
          simp [hadm]
        have hz1 : entriesInWindow t W
            ⟨z.entries.filter (fun e => decide (now - W < e.1)), z.pexpireMs⟩
            = entriesInWindow t W z := by
          unfold entriesInWindow
          exact countP_window_filter t W now z.entries hnow
        have ih' := ih ⟨z.entries.filter (fun e => decide (now - W < e.1)),
            z.pexpireMs⟩ hp.2
        rw [hz1] at ih'
        simp only [admittedInWindow] at ih'
        simp only [runAcquireSeq, admittedInWindow, List.countP_cons, hstep]
        have hhead : (false && decide (t - W < now) && decide (now ≤ t)) = false := by
          simp
        simp only [hhead]
        rw [if_neg (by simp : ¬ (false = true))]
        simpa using ih'
    · -- the call is past t: nothing it or later calls admit lies in the window
      have hrest : admittedInWindow t W
          (runAcquireSeq L W rest (acquireToken L W now uid z).2).2 = 0 := by
        apply admittedInWindow_all_late
        intro d hd
        exact lt_of_lt_of_le (not_le.mp hnow) (hp.1 d.1 (List.mem_map_of_mem Prod.fst hd))
      have hhead : ((acquireToken L W now uid z).1 && decide (t - W < now)
          && decide (now ≤ t)) = false := by
        simp [hnow]
      simp only [admittedInWindow] at hrest
      simp only [runAcquireSeq, admittedInWindow, List.countP_cons]
      simp only [hrest, hhead]
      rw [if_neg (by simp : ¬ (false = true))]
      simpa using le_max_right L (entriesInWindow t W z : Int)

/-- C1: for every sequence of acquireToken calls against limit L and
window W whose (coordinator) timestamps are non-decreasing, and for every
time t, at most L admitted calls have their timestamp in (t - W, t]. -/
theorem acquireToken_sliding_window_bound (L W t : Int)
    (calls : List (Int × String)) (hL : 0 ≤ L)
    (hmono : List.Pairwise (· ≤ ·) (calls.map Prod.fst)) :
    (admittedInWindow t W (runAcquireSeq L W calls ⟨[], none⟩).2 : Int) ≤ L := by
  have h := runAcquireSeq_window_bound L W t calls ⟨[], none⟩ hmono
  have hz : entriesInWindow t W (⟨[], none⟩ : ZSet) = 0 := by
    simp [entriesInWindow]
  rw [hz] at h
  push_cast at h
  rw [max_eq_left hL] at h
  omega

/-- Witness for C1 at limit 2, window 5, three calls at times 0, 1, 2. -/
theorem acquireToken_sliding_window_bound_witness :
    0 ≤ (2 : Int) ∧
    List.Pairwise (· ≤ ·)
      (([(0, "a"), (1, "b"), (2, "c")] : List (Int × String)).map Prod.fst) ∧
    (admittedInWindow 2 5
      (runAcquireSeq 2 5 [(0, "a"), (1, "b"), (2, "c")] ⟨[], none⟩).2 : Int) ≤ 2 :=
  ⟨by decide, by decide,
   acquireToken_sliding_window_bound 2 5 2 [(0, "a"), (1, "b"), (2, "c")]
     (by decide) (by decide)⟩

/-- C2 counterexample: at now = 1000, window = 1000, the entry with
timestamp 0 sits exactly at now - window. The claim says only entries
with timestamp strictly below now - window are evicted, so the entry
would survive, the count would be 1, and with limit 1 the call would be
rejected; the code's inclusive ZREMRANGEBYSCORE bound evicts it and the
call is admitted. -/
theorem acquireToken_eviction_boundary_counterexample :
    (acquireToken 1 1000 1000 "u" ⟨[(0, "a")], none⟩).1 = true ∧
    ((0 : Int), "a") ∉ (acquireToken 1 1000 1000 "u" ⟨[(0, "a")], none⟩).2.entries ∧
    (acquireTokenSpecLt 1 1000 1000 "u" ⟨[(0, "a")], none⟩).1 = false := by
  refine ⟨by decide, by decide, by decide⟩

/-- C2 (amended): one acquireToken call evicts exactly the entries with
timestamp ≤ now - windowMs (inclusive bound), is allowed iff the count
of the remaining entries is below the limit, in which case exactly the
one entry (now, uniqueId) is appended and the key expiry is set to
windowMs; on rejection no entry is added and the expiry is untouched. -/
theorem acquireToken_step_characterization (limit windowMs now : Int)
    (uniqueId : String) (z : ZSet) :
    acquireToken limit windowMs now uniqueId z =
      (decide (((z.entries.filter
          (fun e => !decide (e.1 ≤ now - windowMs))).length : Int) < limit),
       if ((z.entries.filter
          (fun e => !decide (e.1 ≤ now - windowMs))).length : Int) < limit then
         { entries := z.entries.filter (fun e => !decide (e.1 ≤ now - windowMs))
             ++ [(now, uniqueId)],
           pexpireMs := some windowMs }
       else
         { entries := z.entries.filter (fun e => !decide (e.1 ≤ now - windowMs)),
           pexpireMs := z.pexpireMs }) := by
  have hf : z.entries.filter (fun e => decide (now - windowMs < e.1))
      = z.entries.filter (fun e => !decide (e.1 ≤ now - windowMs)) := by
    apply List.filter_congr
    intro a _
    by_cases h : now - windowMs < a.1 <;> simp [h] <;> omega
  unfold acquireToken acquireRateLimitToken
  rw [hf]
  by_cases h : ((z.entries.filter
      (fun e => !decide (e.1 ≤ now - windowMs))).length : Int) < limit <;>
    simp [h]

lemma recoverLoop_spec (lk : List String) (lq lp : Option Int) :
    ∀ (rest done w0 : List String),
    recoverLoop rest
      ⟨w0 ++ done.filter (fun r => !(lk.contains (lockKey r))),
       done.filter (fun r => lk.contains (lockKey r)) ++ rest, lk, lq, lp⟩
    = ⟨w0 ++ (done ++ rest).filter (fun r => !(lk.contains (lockKey r))),
       (done ++ rest).filter (fun r => lk.contains (lockKey r)), lk, lq, lp⟩ := by
  intro rest
  induction rest with
  | nil =>
    intro done w0
    simp [recoverLoop]
  | cons r rest ih =>
    intro done w0
    have hl : (done ++ [r]) ++ rest = done ++ r :: rest := by simp
    by_cases hc : lk.contains (lockKey r)
    · have hcm : lockKey r ∈ lk := by simpa using hc
      have hex : lockExists
          ⟨w0 ++ done.filter (fun r => !(lk.contains (lockKey r))),
           done.filter (fun r => lk.contains (lockKey r)) ++ (r :: rest),
           lk, lq, lp⟩ r = true := by
        simp only [lockExists]
        exact hc
      have hstate :
          (⟨w0 ++ done.filter (fun r => !(lk.contains (lockKey r))),
            done.filter (fun r => lk.contains (lockKey r)) ++ (r :: rest),
            lk, lq, lp⟩ : QueueState)
          = ⟨w0 ++ (done ++ [r]).filter (fun r => !(lk.contains (lockKey r))),
             (done ++ [r]).filter (fun r => lk.contains (lockKey r)) ++ rest,
             lk, lq, lp⟩ := by
        simp [List.filter_append, hcm]
      simp only [recoverLoop, hex, if_true]
      rw [hstate, ih (done ++ [r]) w0, hl]
    · have hcm : lockKey r ∉ lk := by simpa using hc
      have hex : lockExists
          ⟨w0 ++ done.filter (fun r => !(lk.contains (lockKey r))),
           done.filter (fun r => lk.contains (lockKey r)) ++ (r :: rest),
           lk, lq, lp⟩ r = false := by
        simp only [lockExists]
        simpa using hc
      have hnotmem : r ∉ done.filter (fun r => lk.contains (lockKey r)) := by
        intro hmem
        exact hc (List.mem_filter.mp hmem).2
      have herase :
          (done.filter (fun r => lk.contains (lockKey r)) ++ (r :: rest)).erase r
            = done.filter (fun r => lk.contains (lockKey r)) ++ rest := by
        rw [List.erase_append_right _ hnotmem, List.erase_cons_head]
      have hstate :
          (⟨(w0 ++ done.filter (fun r => !(lk.contains (lockKey r)))) ++ [r],
            done.filter (fun r => lk.contains (lockKey r)) ++ rest,
            lk, lq, lp⟩ : QueueState)
          = ⟨w0 ++ (done ++ [r]).filter (fun r => !(lk.contains (lockKey r))),
             (done ++ [r]).filter (fun r => lk.contains (lockKey r)) ++ rest,
             lk, lq, lp⟩ := by
        simp [List.filter_append, hcm]
      simp only [recoverLoop, hex, Bool.false_eq_true, if_false, herase]
      rw [hstate, ih (done ++ [r]) w0, hl]

/-- C3: recoverZombies removes from processing exactly the ranges whose
lease key does not exist, appending each of them (in order) to the tail
of work; ranges whose lease key exists stay, and nothing else changes. -/
theorem recoverZombies_spec (q : QueueState) :
    recoverZombies q =
      { work := q.work ++ q.processing.filter (fun r => !(lockExists q r)),
        processing := q.processing.filter (fun r => lockExists q r),
        locks := q.locks,
        lastQueued := q.lastQueued,
        lastProcessed := q.lastProcessed } := by
  obtain ⟨w, p, lk, lq, lp⟩ := q
  have h := recoverLoop_spec lk lq lp p [] w
  simp only [List.filter_nil, List.append_nil, List.nil_append] at h
  exact h

/-- C4: updateLastProcessedIfHigher stores the maximum of the previous
watermark and the new value (an unset watermark acts as minus infinity),
and complete removes one occurrence of the range from processing,
deletes its lease key, and then applies that same monotone update with
the range's upper end. -/
theorem complete_watermark_monotone (q : QueueState) (f t b : Int) :
    updateLastProcessedIfHigher b q =
      { q with lastProcessed := some (match q.lastProcessed with
          | none => b
          | some c => max c b) } ∧
    complete f t q =
      { work := q.work,
        processing := q.processing.erase (rangeString f t),
        locks := q.locks.filter (fun k => k ≠ lockKey (rangeString f t)),
        lastQueued := q.lastQueued,
        lastProcessed := some (match q.lastProcessed with
          | none => t
          | some c => max c t) } := by
  obtain ⟨w, p, lk, lq, lp⟩ := q
  constructor
  · cases lp with
    | none => rfl
    | some c =>
      by_cases h : b > c
      · simp only [updateLastProcessedIfHigher, h, if_true]
        have : max c b = b := max_eq_right (le_of_lt h)
        simp [this]
      · simp only [updateLastProcessedIfHigher, h, if_false]
        have : max c b = c := max_eq_left (not_lt.mp h)
        simp [this]
  · cases lp with
    | none => rfl
    | some c =>
      by_cases h : t > c
      · simp only [complete, updateLastProcessedIfHigher, h, if_true]
        have : max c t = t := max_eq_right (le_of_lt h)
        simp [this]
      · simp only [complete, updateLastProcessedIfHigher, h, if_false]
        have : max c t = c := max_eq_left (not_lt.mp h)
        simp [this]

/-- C9: when processing the leased range throws, the iteration emits no
heartbeatStopped event (the catch block of Indexer.start has no
clearInterval), calls fail -- which removes the range from processing,
deletes the lease key and appends the range to the tail of work -- and
sleeps 2000 ms; the claim's requirement that the heartbeat be stopped
before fail() is not met by the code. -/
theorem workerIteration_failure_keeps_heartbeat (q : QueueState) (f t : Int) :
    (workerIteration q f t false).2
      = [IterEvent.heartbeatStarted, IterEvent.failed, IterEvent.slept 2000] ∧
    IterEvent.heartbeatStopped ∉ (workerIteration q f t false).2 ∧
    (workerIteration q f t false).1 =
      { work := q.work ++ [rangeString f t],
        processing := q.processing.erase (rangeString f t),
        locks := q.locks.filter (fun k => k ≠ lockKey (rangeString f t)),
        lastQueued := q.lastQueued,
        lastProcessed := q.lastProcessed } := by
  refine ⟨rfl, by simp [workerIteration], ?_⟩
  obtain ⟨w, p, lk, lq, lp⟩ := q
  rfl

lemma addBatchRangesGo_fuel (B : Int) (hB : 0 < B) :
    ∀ (f1 f2 : Nat) (lo hi : Int),
    (hi + 1 - lo).toNat ≤ f1 → (hi + 1 - lo).toNat ≤ f2 →
    addBatchRangesGo B f1 lo hi = addBatchRangesGo B f2 lo hi := by
  intro f1
  induction f1 with
  | zero =>
    intro f2 lo hi h1 h2
    have hlo : ¬ (lo ≤ hi) := by omega
    cases f2 with
    | zero => rfl
    | succ m => simp [addBatchRangesGo, hlo]
  | succ n ih =>
    intro f2 lo hi h1 h2
    cases f2 with
    | zero =>
      have hlo : ¬ (lo ≤ hi) := by omega
      simp [addBatchRangesGo, hlo]
    | succ m =>
      by_cases hlo : lo ≤ hi
      · simp only [addBatchRangesGo, hlo, if_true]
        have hrec := ih m (lo + B) hi (by omega) (by omega)
        rw [hrec]
      · simp [addBatchRangesGo, hlo]

lemma addBatchRanges_eq (B lo hi : Int) (hB : 0 < B) :
    addBatchRanges B lo hi =
      if lo ≤ hi then
        (lo, min (lo + B - 1) hi) :: addBatchRanges B (lo + B) hi
      else [] := by
  by_cases hlo : lo ≤ hi
  · have h1 : (hi + 1 - lo).toNat = ((hi + 1 - lo).toNat - 1) + 1 := by omega
    unfold addBatchRanges
    rw [h1]
    simp only [addBatchRangesGo, hlo, if_true]
    rw [addBatchRangesGo_fuel B hB ((hi + 1 - lo).toNat - 1)
      ((hi + 1 - (lo + B)).toNat) (lo + B) hi (by omega) (by omega)]
  · unfold addBatchRanges
    have h0 : (hi + 1 - lo).toNat = 0 := by omega
    rw [h0]
    simp [addBatchRangesGo, hlo]

lemma addBatchRanges_partition (B : Int) (hB : 0 < B) :
    ∀ (n : Nat) (lo hi : Int), (hi + 1 - lo).toNat = n → lo ≤ hi →
    isBatchPartition B lo hi (addBatchRanges B lo hi) := by
  intro n
  induction n using Nat.strong_induction_on with
  | _ n ih =>
    intro lo hi hm hlo
    rw [addBatchRanges_eq B lo hi hB, if_pos hlo]
    by_cases hnext : lo + B ≤ hi
    · have hmin : min (lo + B - 1) hi = lo + B - 1 := min_eq_left (by omega)
      have hrec := ih ((hi + 1 - (lo + B)).toNat) (by omega) (lo + B) hi rfl hnext
      obtain ⟨hall, hchain, hhead, hlast⟩ := hrec
      rw [hmin]
      cases hL : addBatchRanges B (lo + B) hi with
      | nil => rw [hL] at hhead; simp at hhead
      | cons a tl =>
        rw [hL] at hall hchain hhead hlast
        have ha1 : a.1 = lo + B := by
          simp only [List.head?_cons, Option.map_some'] at hhead
          exact Option.some_injective _ hhead
        refine ⟨?_, ?_, ?_, ?_⟩
        · intro p hp
          rcases List.mem_cons.mp hp with h | h
          · rw [h]
            constructor <;> simp <;> omega
          · exact hall p h
        · rw [List.chain'_cons]
          refine ⟨⟨rfl, ?_⟩, hchain⟩
          rw [ha1]
          omega
        · simp
        · rw [List.getLast?_cons_cons]
          exact hlast
    · have hmin : min (lo + B - 1) hi = hi := min_eq_right (by omega)
      have hnil : addBatchRanges B (lo + B) hi = [] := by
        rw [addBatchRanges_eq B _ _ hB, if_neg (by omega)]
      rw [hmin, hnil]
      refine ⟨?_, ?_, ?_, ?_⟩
      · intro p hp
        simp only [List.mem_singleton] at hp
        rw [hp]
        exact ⟨hlo, by simp; omega⟩
      · simp
      · simp
      · simp

/-- C5: seed computes start = lastQueued + 1 when set and minBlockNumber
otherwise; when start exceeds the target it changes nothing; otherwise it
appends exactly the addBatches range strings for [start, target] to the
tail of work and sets lastQueued := target -- and for every lo ≤ target
the pushed ranges partition [lo, target] into consecutive inclusive
ranges of batchSize blocks, the last possibly shorter. -/
theorem seed_spec (B minB target : Int) (q : QueueState) (hB : 0 < B) :
    (seed B minB target q =
      (let start := match q.lastQueued with
        | some lq => lq + 1
        | none => minB
       if start > target then q
       else { work := q.work ++ (addBatchRanges B start target).map
                (fun p => rangeString p.1 p.2),
              processing := q.processing,
              locks := q.locks,
              lastQueued := some target,
              lastProcessed := q.lastProcessed })) ∧
    (∀ lo, lo ≤ target → isBatchPartition B lo target (addBatchRanges B lo target)) := by
  constructor
  · obtain ⟨w, p, lk, lq, lp⟩ := q
    cases lq with
    | none =>
      by_cases h : minB > target <;>
        simp only [seed, addBatches, h, if_true, if_false, ite_true, ite_false] <;> rfl
    | some v =>
      by_cases h : v + 1 > target <;>
        simp only [seed, addBatches, h, if_true, if_false, ite_true, ite_false] <;> rfl
  · intro lo hlo
    exact addBatchRanges_partition B hB ((target + 1 - lo).toNat) lo target rfl hlo

/-- Witness for C5: batch size 5, seeding a fresh queue from min block
100 to target 109 (the spec's cold-start scenario). -/
theorem seed_spec_witness :
    (0 : Int) < 5 ∧
    ((seed 5 100 109 ⟨[], [], [], none, none⟩ =
      (let start := match (⟨[], [], [], none, none⟩ : QueueState).lastQueued with
        | some lq => lq + 1
        | none => 100
       if start > 109 then (⟨[], [], [], none, none⟩ : QueueState)
       else { work := (⟨[], [], [], none, none⟩ : QueueState).work
                ++ (addBatchRanges 5 start 109).map
                  (fun p => rangeString p.1 p.2),
              processing := (⟨[], [], [], none, none⟩ : QueueState).processing,
              locks := (⟨[], [], [], none, none⟩ : QueueState).locks,
              lastQueued := some 109,
              lastProcessed := (⟨[], [], [], none, none⟩ : QueueState).lastProcessed })) ∧
    (∀ lo, lo ≤ (109 : Int) →
      isBatchPartition 5 lo 109 (addBatchRanges 5 lo 109))) :=
  ⟨by decide, seed_spec 5 100 109 ⟨[], [], [], none, none⟩ (by decide)⟩

lemma fetchGo_fail {α : Type} (jitter : Nat → Nat) :
    ∀ (rem attempt ctr : Nat),
    fetchGo (fun _ => (none : Option α)) jitter (rem + 1) attempt ctr =
      ⟨.thrown, ctr + rem + 1,
       (List.range rem).map
         (fun k => 2 ^ (attempt + 1 + k) * 500 + jitter (ctr + k))⟩ := by
  intro rem
  induction rem with
  | zero =>
    intro attempt ctr
    simp [fetchGo]
  | succ n ihn =>
    intro attempt ctr
    show fetchGo _ _ (n + 2) attempt ctr = _
    simp only [fetchGo]
    rw [ihn (attempt + 1) (ctr + 1)]
    have hr : (List.range (n + 1)).map
        (fun k => 2 ^ (attempt + 1 + k) * 500 + jitter (ctr + k))
        = (2 ^ (attempt + 1 + 0) * 500 + jitter (ctr + 0)) ::
          (List.range n).map
            (fun k => 2 ^ (attempt + 1 + (k + 1)) * 500 + jitter (ctr + (k + 1))) := by
      rw [List.range_succ_eq_map, List.map_cons, List.map_map]
      rfl
    rw [hr]
    simp only [RetryResult.mk.injEq, List.cons.injEq, true_and]
    refine ⟨by omega, by norm_num, ?_⟩
    apply List.map_congr_left
    intro k _
    have h1 : attempt + 1 + (k + 1) = attempt + 1 + 1 + k := by omega
    have h2 : ctr + (k + 1) = ctr + 1 + k := by omega
    rw [h1, h2]

lemma fetchGo_ok {α : Type} (oracle : Nat → Option α) (jitter : Nat → Nat)
    (rem attempt ctr : Nat) (v : α) (h : oracle ctr = some v) :
    fetchGo oracle jitter (rem + 1) attempt ctr = ⟨.ok v, ctr + 1, []⟩ := by
  cases rem with
  | zero => simp [fetchGo, h]
  | succ n => simp [fetchGo, h]

lemma fetchAndTransformGo_fail {α : Type} (jitter jitterOuter : Nat → Nat)
    (m : Nat) (hj : ∀ n, jitter n < 500) (hjo : ∀ n, jitterOuter n < 500) :
    ∀ (rem attempt ctr : Nat),
    (fetchAndTransformGo (fun _ => (none : Option α)) jitter jitterOuter
        (m + 1) (rem + 1) attempt ctr).outcome = .thrown ∧
    (fetchAndTransformGo (fun _ => (none : Option α)) jitter jitterOuter
        (m + 1) (rem + 1) attempt ctr).calls = ctr + (rem + 1) * (m + 1) ∧
    (fetchAndTransformGo (fun _ => (none : Option α)) jitter jitterOuter
        (m + 1) (rem + 1) attempt ctr).sleeps.length = (rem + 1) * (m + 1) - 1 ∧
    ∀ d ∈ (fetchAndTransformGo (fun _ => (none : Option α)) jitter jitterOuter
        (m + 1) (rem + 1) attempt ctr).sleeps,
      ∃ a j, 1 ≤ a ∧ j < 500 ∧ d = 2 ^ a * 500 + j := by
  have hin : ∀ ctr, fetcherFetch (fun _ => (none : Option α)) jitter (m + 1) ctr
      = ⟨.thrown, ctr + m + 1,
         (List.range m).map (fun k => 2 ^ (0 + 1 + k) * 500 + jitter (ctr + k))⟩ := by
    intro ctr
    unfold fetcherFetch
    exact fetchGo_fail jitter m 0 ctr
  intro rem
  induction rem with
  | zero =>
    intro attempt ctr
    rw [show (0 + 1 : Nat) = 1 from rfl]
    rw [fetchAndTransformGo, hin]
    refine ⟨rfl, by simp; omega, by simp, ?_⟩
    intro d hd
    simp only [List.mem_map, List.mem_range] at hd
    obtain ⟨k, _, hk⟩ := hd
    exact ⟨0 + 1 + k, jitter (ctr + k), by omega, hj (ctr + k), hk.symm⟩
  | succ n ihn =>
    intro attempt ctr
    have hstep := ihn (attempt + 1) (ctr + m + 1)
    have hexp : (n + 1 + 1) * (m + 1) = (n + 1) * (m + 1) + (m + 1) := by ring
    have hpos : 0 < (n + 1) * (m + 1) := Nat.mul_pos (by omega) (by omega)
    rw [fetchAndTransformGo, hin]
    refine ⟨hstep.1, ?_, ?_, ?_⟩
    · rw [hstep.2.1]
      omega
    · simp only [List.length_append, List.length_cons, List.length_map,
        List.length_range]
      rw [hstep.2.2.1]
      omega
    · intro d hd
      rw [List.mem_append] at hd
      rcases hd with hd | hd
      · simp only [List.mem_map, List.mem_range] at hd
        obtain ⟨k, _, hk⟩ := hd
        exact ⟨0 + 1 + k, jitter (ctr + k), by omega, hj (ctr + k), hk.symm⟩
      · rcases List.mem_cons.mp hd with hd | hd
        · exact ⟨attempt + 1, jitterOuter (attempt + 1), by omega,
            hjo (attempt + 1), hd⟩
        · exact hstep.2.2.2 d hd

/-- C8 (amended): with configured max retries M ≥ 1 and a height whose
underlying fetch fails every time, Fetcher.fetch makes exactly M
attempts, sleeping 2 ^ attempt * 500 + jitter (jitter < 500 ms) between
consecutive attempts, then throws; the worker's fetchAndTransform
additionally retries the whole Fetcher.fetch up to its hardcoded 5
attempts with the same backoff shape, so the height becomes a range
failure only after 5 * M underlying attempts with 5 * M - 1 backoff
sleeps, each of the form 2 ^ a * 500 + j with a ≥ 1 and j < 500; an
attempt whose first underlying fetch succeeds returns that result
immediately after exactly one underlying attempt and no sleeps. -/
theorem fetch_retry_spec {α : Type} (M ctr : Nat) (jitter jitterOuter : Nat → Nat)
    (hM : 1 ≤ M) (hj : ∀ n, jitter n < 500) (hjo : ∀ n, jitterOuter n < 500) :
    (fetcherFetch (fun _ => (none : Option α)) jitter M ctr =
      ⟨.thrown, ctr + M,
       (List.range (M - 1)).map (fun k => 2 ^ (k + 1) * 500 + jitter (ctr + k))⟩) ∧
    (fetchAndTransform (fun _ => (none : Option α)) jitter jitterOuter M ctr).outcome
      = .thrown ∧
    (fetchAndTransform (fun _ => (none : Option α)) jitter jitterOuter M ctr).calls
      = ctr + 5 * M ∧
    (fetchAndTransform (fun _ => (none : Option α)) jitter jitterOuter M
        ctr).sleeps.length = 5 * M - 1 ∧
    (∀ d ∈ (fetchAndTransform (fun _ => (none : Option α)) jitter jitterOuter M
        ctr).sleeps, ∃ a j, 1 ≤ a ∧ j < 500 ∧ d = 2 ^ a * 500 + j) ∧
    (∀ (oracle : Nat → Option α) (v : α), oracle ctr = some v →
      fetchAndTransform oracle jitter jitterOuter M ctr = ⟨.ok v, ctr + 1, []⟩) := by
  obtain ⟨m, rfl⟩ : ∃ m, M = m + 1 := ⟨M - 1, by omega⟩
  have hmain := fetchAndTransformGo_fail (α := α) jitter jitterOuter m hj hjo 4 0 ctr
  refine ⟨?_, ?_, ?_, ?_, ?_, ?_⟩
  · unfold fetcherFetch
    rw [fetchGo_fail jitter m 0 ctr]
    simp only [RetryResult.mk.injEq, true_and, Nat.add_sub_cancel]
    refine ⟨by omega, ?_⟩
    apply List.map_congr_left
    intro k _
    have h1 : 0 + 1 + k = k + 1 := by omega
    rw [h1]
  · exact hmain.1
  · have h2 : (fetchAndTransform (fun _ => (none : Option α)) jitter jitterOuter
        (m + 1) ctr).calls = ctr + 5 * (m + 1) := hmain.2.1
    exact h2
  · have h3 : (fetchAndTransform (fun _ => (none : Option α)) jitter jitterOuter
        (m + 1) ctr).sleeps.length = 5 * (m + 1) - 1 := hmain.2.2.1
    exact h3
  · have h4 : ∀ d ∈ (fetchAndTransform (fun _ => (none : Option α)) jitter
        jitterOuter (m + 1) ctr).sleeps,
        ∃ a j, 1 ≤ a ∧ j < 500 ∧ d = 2 ^ a * 500 + j := hmain.2.2.2
    exact h4
  · intro oracle v hv
    have hin : fetcherFetch oracle jitter (m + 1) ctr = ⟨.ok v, ctr + 1, []⟩ := by
      unfold fetcherFetch
      exact fetchGo_ok oracle jitter m 0 ctr v hv
    show fetchAndTransformGo oracle jitter jitterOuter (m + 1) 5 0 ctr
      = ⟨.ok v, ctr + 1, []⟩
    rw [fetchAndTransformGo, hin]

/-- Witness for C8's amended theorem at M = 1 with zero jitter: 5
underlying attempts happen in total. -/
theorem fetch_retry_spec_witness :
    1 ≤ 1 ∧ (∀ n : Nat, (fun _ : Nat => 0) n < 500) ∧
    ((fetcherFetch (fun _ => (none : Option Unit)) (fun _ : Nat => 0) 1 0 =
      ⟨.thrown, 0 + 1,
       (List.range (1 - 1)).map
         (fun k => 2 ^ (k + 1) * 500 + (fun _ : Nat => 0) (0 + k))⟩) ∧
    (fetchAndTransform (fun _ => (none : Option Unit)) (fun _ : Nat => 0)
        (fun _ : Nat => 0) 1 0).outcome = .thrown ∧
    (fetchAndTransform (fun _ => (none : Option Unit)) (fun _ : Nat => 0)
        (fun _ : Nat => 0) 1 0).calls = 0 + 5 * 1 ∧
    (fetchAndTransform (fun _ => (none : Option Unit)) (fun _ : Nat => 0)
        (fun _ : Nat => 0) 1 0).sleeps.length = 5 * 1 - 1 ∧
    (∀ d ∈ (fetchAndTransform (fun _ => (none : Option Unit)) (fun _ : Nat => 0)
        (fun _ : Nat => 0) 1 0).sleeps,
      ∃ a j, 1 ≤ a ∧ j < 500 ∧ d = 2 ^ a * 500 + j) ∧
    (∀ (oracle : Nat → Option Unit) (v : Unit), oracle 0 = some v →
      fetchAndTransform oracle (fun _ : Nat => 0) (fun _ : Nat => 0) 1 0
        = ⟨.ok v, 0 + 1, []⟩)) := by
  refine ⟨by decide, ?_, ?_⟩
  · intro n
    norm_num
  · exact fetch_retry_spec 1 0 (fun _ => 0) (fun _ => 0) (by decide)
      (fun _ => by norm_num) (fun _ => by norm_num)

/-- C8 counterexample: with configured max retries M = 1 and an
always-failing underlying fetch, the claim predicts a range failure
after 1 attempt, but the worker's fetchAndTransform wraps Fetcher.fetch
in its own 5-attempt loop, so 5 underlying attempts happen before the
range failure. -/
theorem fetchAndTransform_attempt_count_counterexample :
    (fetchAndTransform (fun _ => (none : Option Unit)) (fun _ : Nat => 0)
        (fun _ : Nat => 0) 1 0).calls = 5 ∧
    (fetchAndTransform (fun _ => (none : Option Unit)) (fun _ : Nat => 0)
        (fun _ : Nat => 0) 1 0).outcome = FetchOutcome.thrown ∧
    ¬ ((fetchAndTransform (fun _ => (none : Option Unit)) (fun _ : Nat => 0)
        (fun _ : Nat => 0) 1 0).calls = 1) :=
  ⟨rfl, rfl, by decide⟩

lemma transformTx_legacy_errors (bh : String) (bts : Int)
    (receipts : List ReceiptSrc) (tx : TxSrc)
    (h : tx.maxFeePerGas = none ∨ tx.maxPriorityFeePerGas = none) :
    ∀ pr, transformTx bh bts receipts tx ≠ .ok pr := by
  intro pr hok
  unfold transformTx at hok
  rcases h with hc | hc <;>
    (repeat' split at hok) <;> simp_all [bigIntToStr]

lemma transformTxs_ok_forall (bh : String) (bts : Int)
    (receipts : List ReceiptSrc) :
    ∀ (txs : List TxSrc) (acc out : List TransactionRecord × List LogRecord),
    transformTxs bh bts receipts txs acc = .ok out →
    ∀ tx ∈ txs, ∃ pr, transformTx bh bts receipts tx = .ok pr := by
  intro txs
  induction txs with
  | nil =>
    intro acc out _ tx htx
    simp at htx
  | cons t rest ih =>
    intro acc out h tx htx
    unfold transformTxs at h
    cases hstep : transformTx bh bts receipts t with
    | error e => rw [hstep] at h; simp at h
    | ok pr =>
      rw [hstep] at h
      rcases List.mem_cons.mp htx with rfl | hmem
      · exact ⟨pr, hstep⟩
      · exact ih _ out h tx hmem

/-- C10: when some transaction of the block lacks maxFeePerGas or
maxPriorityFeePerGas (a pre-EIP-1559 legacy transaction), transformData
throws -- bigIntToStr dereferences the null -- rather than producing a
record with a null max_fee_per_gas, even though TransactionRecord
declares both fields nullable. -/
theorem transformData_requires_eip1559_fields (block : BlockSrc)
    (receipts : List ReceiptSrc)
    (h : ∃ tx ∈ block.transactions,
      tx.maxFeePerGas = none ∨ tx.maxPriorityFeePerGas = none) :
    ∃ e, transformData block receipts = Except.error e := by
  obtain ⟨tx, htx, hnull⟩ := h
  cases hres : transformData block receipts with
  | error e => exact ⟨e, rfl⟩
  | ok out =>
    exfalso
    unfold transformData at hres
    repeat' split at hres
    all_goals first
      | exact Except.noConfusion hres
      | (rename_i x acc hts
         obtain ⟨pr, hpr⟩ := transformTxs_ok_forall _ block.timestamp receipts
           block.transactions ([], []) acc hts tx htx
         exact transformTx_legacy_errors _ block.timestamp receipts tx
           hnull pr hpr)

/-- Witness for C10: transformData throws on the concrete block holding
one legacy transaction even though its receipt is present. -/
theorem transformData_requires_eip1559_fields_witness :
    (∃ tx ∈ blkLegacy.transactions,
      tx.maxFeePerGas = none ∨ tx.maxPriorityFeePerGas = none) ∧
    ∃ e, transformData blkLegacy [rcptLegacy] = Except.error e :=
  ⟨by decide, transformData_requires_eip1559_fields blkLegacy [rcptLegacy]
    (by decide)⟩

lemma insertRows_append (ins : DbState → ρ → Except PgError DbState)
    (l1 l2 : List ρ) : ∀ s,
    insertRows ins s (l1 ++ l2) =
      match insertRows ins s l1 with
      | .error e => .error e
      | .ok s' => insertRows ins s' l2 := by
  induction l1 with
  | nil => intro s; simp [insertRows]
  | cons x rest ih =>
    intro s
    simp only [List.cons_append, insertRows]
    cases ins s x with
    | error e => rfl
    | ok s' => exact ih s'

lemma insertChunks_chunkGo (ins : DbState → ρ → Except PgError DbState)
    (size : Nat) (hs : 0 < size) :
    ∀ (fuel : Nat) (l : List ρ) (s : DbState), l.length ≤ fuel →
    insertChunks ins s (chunkGo size fuel l) = insertRows ins s l := by
  intro fuel
  induction fuel with
  | zero =>
    intro l s hl
    have : l = [] := List.eq_nil_of_length_eq_zero (by omega)
    rw [this]
    simp [chunkGo, insertChunks, insertRows]
  | succ n ih =>
    intro l s hl
    cases l with
    | nil => simp [chunkGo, insertChunks, insertRows]
    | cons a l' =>
      simp only [chunkGo, insertChunks]
      have hsplit := insertRows_append ins ((a :: l').take size)
        ((a :: l').drop size) s
      rw [List.take_append_drop] at hsplit
      rw [hsplit]
      cases insertRows ins s ((a :: l').take size) with
      | error e => rfl
      | ok s' =>
        apply ih
        simp only [List.length_drop, List.length_cons]
        simp only [List.length_cons] at hl
        omega

lemma insertChunks_chunk (ins : DbState → ρ → Except PgError DbState)
    (l : List ρ) (s : DbState) :
    insertChunks ins s (chunk l BATCH_SIZE) = insertRows ins s l := by
  unfold chunk
  exact insertChunks_chunkGo ins BATCH_SIZE (by norm_num [BATCH_SIZE]) l.length l s
    le_rfl

lemma runSave_eq (s : DbState) (blocks : List BlockRecord)
    (txs : List TransactionRecord) (logs : List LogRecord) :
    runSave s blocks txs logs =
      match insertRows insertBlockRow s blocks with
      | .error e => .error e
      | .ok s1 =>
        match insertRows insertTxRow s1 txs with
        | .error e => .error e
        | .ok s2 =>
          match insertRows insertLogRow s2 logs with
          | .error e => .error e
          | .ok s3 => .ok s3 := by
  unfold runSave
  simp only [insertChunks_chunk]

lemma blocks_number_unique (l : List BlockRecord)
    (hp : l.Pairwise (fun a b => a.number ≠ b.number)) :
    ∀ x ∈ l, ∀ y ∈ l, x.number = y.number → x = y := by
  induction l with
  | nil => simp
  | cons a rest ih =>
    rw [List.pairwise_cons] at hp
    intro x hx y hy hxy
    rcases List.mem_cons.mp hx with rfl | hx' <;>
      rcases List.mem_cons.mp hy with rfl | hy'
    · rfl
    · exact absurd hxy (hp.1 y hy')
    · exact absurd hxy.symm (hp.1 x hx')
    · exact ih hp.2 x hx' y hy' hxy

lemma insertRows_blocks_spec (P : List BlockRecord)
    (tx0 : List TransactionRecord) (lg0 : List LogRecord)
    (hPnum : P.Pairwise (fun a b => a.number ≠ b.number)) :
    ∀ (bs prevs : List BlockRecord),
    ((prevs ++ bs).Pairwise (fun a b => a.number ≠ b.number)) →
    ((prevs ++ bs).Pairwise (fun a b => a.hash ≠ b.hash)) →
    (∀ x ∈ prevs ++ bs, ∀ row ∈ P, row.hash = x.hash → row.number = x.number) →
    insertRows insertBlockRow
      ⟨P ++ prevs.filter (fun x => !(P.any (fun row => row.number == x.number))),
        tx0, lg0⟩ bs
    = (if bs.any (collidesDiff P) then .error PgError.notNullViolation
       else .ok ⟨P ++ (prevs ++ bs).filter
          (fun x => !(P.any (fun row => row.number == x.number))), tx0, lg0⟩) := by
  intro bs
  induction bs with
  | nil =>
    intro prevs _ _ _
    simp [insertRows]
  | cons b rest ih =>
    intro prevs hnum hhash hP3
    have hnum' : ((prevs ++ [b]) ++ rest).Pairwise
        (fun a c => a.number ≠ c.number) := by
      rw [List.append_assoc, List.singleton_append]; exact hnum
    have hhash' : ((prevs ++ [b]) ++ rest).Pairwise
        (fun a c => a.hash ≠ c.hash) := by
      rw [List.append_assoc, List.singleton_append]; exact hhash
    have hP3' : ∀ x ∈ (prevs ++ [b]) ++ rest, ∀ row ∈ P,
        row.hash = x.hash → row.number = x.number := by
      rw [List.append_assoc, List.singleton_append]; exact hP3
    simp only [insertRows]
    by_cases hconf : ∃ row ∈ P, row.number = b.number
    · obtain ⟨r0, hr0P, hr0n⟩ := hconf
      have hfindPne : P.find? (fun row => row.number == b.number) ≠ none := by
        rw [Ne, List.find?_eq_none]
        push_neg
        exact ⟨r0, hr0P, by simp [hr0n]⟩
      obtain ⟨r1, hr1⟩ := Option.ne_none_iff_exists'.mp hfindPne
      have hr1P : r1 ∈ P := List.mem_of_find?_eq_some hr1
      have hr1n : r1.number = b.number := by
        have h := List.find?_some hr1
        simpa using h
      have hfind : (P ++ prevs.filter
          (fun x => !(P.any (fun row => row.number == x.number)))).find?
          (fun row => row.number == b.number) = some r1 := by
        rw [List.find?_append, hr1]
        rfl
      have hb_stale : P.any (fun row => row.number == b.number) = true := by
        rw [List.any_eq_true]
        exact ⟨r1, hr1P, by simp [hr1n]⟩
      have hstate : P ++ prevs.filter
            (fun x => !(P.any (fun row => row.number == x.number)))
          = P ++ ((prevs ++ [b]).filter
            (fun x => !(P.any (fun row => row.number == x.number)))) := by
        rw [List.filter_append, List.filter_cons]
        simp [hb_stale]
      by_cases hdiff : r1.hash = b.hash
      · -- equal hash: DO UPDATE's WHERE excludes the row, nothing happens
        have hcb : collidesDiff P b = false := by
          rw [collidesDiff, List.any_eq_false]
          intro row hrow
          by_cases hn : row.number = b.number
          · have heqr : row = r1 :=
              blocks_number_unique P hPnum row hrow r1 hr1P (by rw [hn, hr1n])
            rw [heqr, hdiff]
            simp
          · simp [hn]
        have hstep : insertBlockRow
            ⟨P ++ prevs.filter
              (fun x => !(P.any (fun row => row.number == x.number))),
              tx0, lg0⟩ b = .ok ⟨P ++ prevs.filter
              (fun x => !(P.any (fun row => row.number == x.number))),
              tx0, lg0⟩ := by
          simp only [insertBlockRow, hfind]
          rw [if_neg (by simp [hdiff])]
        simp only [hstep]
        rw [show (⟨P ++ prevs.filter
            (fun x => !(P.any (fun row => row.number == x.number))),
            tx0, lg0⟩ : DbState)
          = ⟨P ++ ((prevs ++ [b]).filter
            (fun x => !(P.any (fun row => row.number == x.number)))),
            tx0, lg0⟩ from by rw [← hstate]]
        rw [ih (prevs ++ [b]) hnum' hhash' hP3']
        simp only [List.any_cons, hcb, Bool.false_or, List.append_assoc,
          List.singleton_append]
      · -- different hash: deliberate not-null violation
        have hcb : collidesDiff P b = true := by
          rw [collidesDiff, List.any_eq_true]
          refine ⟨r1, hr1P, ?_⟩
          simp [hr1n, hdiff]
        have hstep : insertBlockRow
            ⟨P ++ prevs.filter
              (fun x => !(P.any (fun row => row.number == x.number))),
              tx0, lg0⟩ b = .error PgError.notNullViolation := by
          simp only [insertBlockRow, hfind]
          rw [if_pos hdiff]
        simp only [hstep, List.any_cons, hcb, Bool.true_or, if_true]
    · -- fresh number
      push_neg at hconf
      have hfindP : P.find? (fun row => row.number == b.number) = none := by
        rw [List.find?_eq_none]
        intro row hrow
        simp only [beq_iff_eq]
        exact hconf row hrow
      have hprevs_ne : ∀ x ∈ prevs, x.number ≠ b.number := by
        rw [List.pairwise_append] at hnum
        intro x hx
        exact hnum.2.2 x hx b (by simp)
      have hfindF : (prevs.filter
          (fun x => !(P.any (fun row => row.number == x.number)))).find?
          (fun row => row.number == b.number) = none := by
        rw [List.find?_eq_none]
        intro x hx
        simp only [beq_iff_eq]
        exact hprevs_ne x (List.mem_of_mem_filter hx)
      have hfind : (P ++ prevs.filter
          (fun x => !(P.any (fun row => row.number == x.number)))).find?
          (fun row => row.number == b.number) = none := by
        rw [List.find?_append, hfindP, hfindF]
        rfl
      have hany : (P ++ prevs.filter
          (fun x => !(P.any (fun row => row.number == x.number)))).any
          (fun row => row.hash == b.hash) = false := by
        rw [List.any_eq_false]
        intro row hrow
        simp only [beq_iff_eq]
        rcases List.mem_append.mp hrow with hPm | hFm
        · intro heq
          exact hconf row hPm (hP3 b (by simp) row hPm heq)
        · intro heq
          rw [List.pairwise_append] at hhash
          exact hhash.2.2 row (List.mem_of_mem_filter hFm) b (by simp) heq
      have hb_fresh : P.any (fun row => row.number == b.number) = false := by
        rw [List.any_eq_false]
        intro row hrow
        simp only [beq_iff_eq]
        exact hconf row hrow
      have hstep : insertBlockRow
          ⟨P ++ prevs.filter
            (fun x => !(P.any (fun row => row.number == x.number))),
            tx0, lg0⟩ b
          = .ok ⟨(P ++ prevs.filter
            (fun x => !(P.any (fun row => row.number == x.number)))) ++ [b],
            tx0, lg0⟩ := by
        simp only [insertBlockRow, hfind, hany]
        rfl
      have hstate : (P ++ prevs.filter
            (fun x => !(P.any (fun row => row.number == x.number)))) ++ [b]
          = P ++ ((prevs ++ [b]).filter
            (fun x => !(P.any (fun row => row.number == x.number)))) := by
        rw [List.filter_append, List.filter_cons]
        simp [hb_fresh]
      have hcb : collidesDiff P b = false := by
        rw [collidesDiff, List.any_eq_false]
        intro row hrow
        simp [hconf row hrow]
      simp only [hstep]
      rw [show (⟨(P ++ prevs.filter
          (fun x => !(P.any (fun row => row.number == x.number)))) ++ [b],
          tx0, lg0⟩ : DbState)
        = ⟨P ++ ((prevs ++ [b]).filter
          (fun x => !(P.any (fun row => row.number == x.number)))),
          tx0, lg0⟩ from by rw [hstate]]
      rw [ih (prevs ++ [b]) hnum' hhash' hP3']
      simp only [List.any_cons, hcb, Bool.false_or, List.append_assoc,
        List.singleton_append]

lemma insertRows_txs_ok :
    ∀ (ts : List TransactionRecord) (s : DbState),
    (∀ t ∈ ts, t.type ≠ none) →
    (∀ t ∈ ts, s.blocks.any (fun row => row.number == t.block_number) = true) →
    ∃ s', insertRows insertTxRow s ts = .ok s' ∧
      s'.blocks = s.blocks ∧ s'.logs = s.logs ∧
      (∀ h, s.txs.any (fun row => row.hash == h) = true →
            s'.txs.any (fun row => row.hash == h) = true) ∧
      (∀ t ∈ ts, s'.txs.any (fun row => row.hash == t.hash) = true) := by
  intro ts
  induction ts with
  | nil =>
    intro s _ _
    exact ⟨s, rfl, rfl, rfl, fun h hh => hh, by simp⟩
  | cons t rest ih =>
    intro s htype hfk
    have htype_t : ¬ (t.type = none) := htype t (by simp)
    by_cases hdup : s.txs.any (fun row => row.hash == t.hash) = true
    · have hstep : insertTxRow s t = .ok s := by
        simp only [insertTxRow, if_neg htype_t, hdup, if_true]
      obtain ⟨s', hrun, hb, hl, hpres, hall⟩ :=
        ih s (fun x hx => htype x (by simp [hx]))
          (fun x hx => hfk x (by simp [hx]))
      refine ⟨s', ?_, hb, hl, hpres, ?_⟩
      · simp only [insertRows, hstep]
        exact hrun
      · intro x hx
        rcases List.mem_cons.mp hx with rfl | hx'
        · exact hpres x.hash hdup
        · exact hall x hx'
    · have hfk_t : s.blocks.any (fun row => row.number == t.block_number) = true :=
        hfk t (by simp)
      have hstep : insertTxRow s t
          = .ok { s with txs := s.txs ++ [t] } := by
        simp only [insertTxRow, if_neg htype_t, hdup, hfk_t, if_true]
        rw [if_neg (by simp [hdup])]
      obtain ⟨s', hrun, hb, hl, hpres, hall⟩ :=
        ih { s with txs := s.txs ++ [t] }
          (fun x hx => htype x (by simp [hx]))
          (fun x hx => hfk x (by simp [hx]))
      have hpres0 : ∀ h, s.txs.any (fun row => row.hash == h) = true →
          (s.txs ++ [t]).any (fun row => row.hash == h) = true := by
        intro h hh
        rw [List.any_append, hh, Bool.true_or]
      refine ⟨s', ?_, hb, hl, ?_, ?_⟩
      · simp only [insertRows, hstep]
        exact hrun
      · intro h hh
        exact hpres h (hpres0 h hh)
      · intro x hx
        rcases List.mem_cons.mp hx with rfl | hx'
        · apply hpres
          rw [List.any_append]
          simp
        · exact hall x hx'

lemma insertRows_logs_ok :
    ∀ (ls : List LogRecord) (s : DbState),
    (∀ l ∈ ls, s.txs.any (fun row => row.hash == l.transaction_hash) = true) →
    (∀ l ∈ ls, s.blocks.any (fun row => row.number == l.block_number) = true) →
    ∃ s', insertRows insertLogRow s ls = .ok s' ∧
      s'.blocks = s.blocks ∧ s'.txs = s.txs := by
  intro ls
  induction ls with
  | nil =>
    intro s _ _
    exact ⟨s, rfl, rfl, rfl⟩
  | cons l rest ih =>
    intro s htx hbk
    by_cases hdup : s.logs.any (fun row =>
        row.transaction_hash == l.transaction_hash
        && row.log_index == l.log_index) = true
    · have hstep : insertLogRow s l = .ok s := by
        simp only [insertLogRow, hdup, if_true]
      obtain ⟨s', hrun, hb, ht⟩ :=
        ih s (fun x hx => htx x (by simp [hx])) (fun x hx => hbk x (by simp [hx]))
      refine ⟨s', ?_, hb, ht⟩
      simp only [insertRows, hstep]
      exact hrun
    · have hstep : insertLogRow s l = .ok { s with logs := s.logs ++ [l] } := by
        simp only [insertLogRow, htx l (by simp), hbk l (by simp), if_true]
        rw [if_neg (by simp [hdup])]
      obtain ⟨s', hrun, hb, ht⟩ :=
        ih { s with logs := s.logs ++ [l] }
          (fun x hx => htx x (by simp [hx])) (fun x hx => hbk x (by simp [hx]))
      refine ⟨s', ?_, hb, ht⟩
      simp only [insertRows, hstep]
      exact hrun

lemma collides_any_iff (P bs : List BlockRecord) :
    bs.any (collidesDiff P) = true ↔
      ∃ b ∈ bs, ∃ row ∈ P, row.number = b.number ∧ row.hash ≠ b.hash := by
  simp [collidesDiff, List.any_eq_true, Bool.and_eq_true, beq_iff_eq,
    bne_iff_ne]

/-- C6 (amended): under well-formed inputs -- pairwise-distinct block
numbers and hashes, no hash collision against a differently-numbered
stored row, transactions all carrying a non-null type, and resolvable
foreign keys -- save raises ReorgDetected exactly when some inserted
block's number collides with a stored row whose hash differs; on every
error the transaction rolls back leaving the store unchanged; and with
no such collision the call succeeds, appending exactly the
fresh-numbered blocks (an equal-hash conflict changes nothing). Without
the non-null-type restriction a transaction with a null type also
surfaces as ReorgDetected, since the catch maps every 23502 to it. -/
theorem save_reorg_spec (s : DbState) (bs : List BlockRecord)
    (ts : List TransactionRecord) (ls : List LogRecord)
    (hPnum : s.blocks.Pairwise (fun a b => a.number ≠ b.number))
    (hbnum : bs.Pairwise (fun a b => a.number ≠ b.number))
    (hbhash : bs.Pairwise (fun a b => a.hash ≠ b.hash))
    (hfresh : ∀ b ∈ bs, ∀ row ∈ s.blocks, row.hash = b.hash → row.number = b.number)
    (httype : ∀ t ∈ ts, t.type ≠ none)
    (htfk : ∀ t ∈ ts, (∃ row ∈ s.blocks, row.number = t.block_number) ∨
      ∃ b ∈ bs, b.number = t.block_number)
    (hlfk : ∀ l ∈ ls,
      ((∃ row ∈ s.txs, row.hash = l.transaction_hash) ∨
        ∃ t ∈ ts, t.hash = l.transaction_hash) ∧
      ((∃ row ∈ s.blocks, row.number = l.block_number) ∨
        ∃ b ∈ bs, b.number = l.block_number)) :
    ((save s bs ts ls).2 = some SaveError.reorgDetected ↔
      ∃ b ∈ bs, ∃ row ∈ s.blocks, row.number = b.number ∧ row.hash ≠ b.hash) ∧
    (∀ e, (save s bs ts ls).2 = some e → (save s bs ts ls).1 = s) ∧
    ((¬ ∃ b ∈ bs, ∃ row ∈ s.blocks, row.number = b.number ∧ row.hash ≠ b.hash) →
      (save s bs ts ls).2 = none ∧
      (save s bs ts ls).1.blocks = s.blocks ++ bs.filter
        (fun b => !(s.blocks.any (fun row => row.number == b.number)))) := by
  obtain ⟨P, T, Lg⟩ := s
  simp only at hPnum hfresh htfk hlfk ⊢
  have hblocks := insertRows_blocks_spec P T Lg hPnum bs []
    (by simpa using hbnum) (by simpa using hbhash)
    (by simpa using hfresh)
  simp only [List.filter_nil, List.append_nil, List.nil_append] at hblocks
  by_cases hcol : bs.any (collidesDiff P) = true
  · -- a reorg collision exists: the blocks statement fails with 23502
    simp only [hcol, eq_self_iff_true, if_true] at hblocks
    have hrun : runSave ⟨P, T, Lg⟩ bs ts ls = .error PgError.notNullViolation := by
      rw [runSave_eq]
      simp only [hblocks]
    have hsave : save ⟨P, T, Lg⟩ bs ts ls
        = (⟨P, T, Lg⟩, some SaveError.reorgDetected) := by
      simp only [save, hrun]
    rw [hsave]
    refine ⟨?_, ?_, ?_⟩
    · simp only [true_iff]
      exact (collides_any_iff P bs).mp hcol
    · intro e _
      rfl
    · intro hnot
      exact absurd ((collides_any_iff P bs).mp hcol) hnot
  · -- no collision: all three stages succeed
    rw [if_neg hcol] at hblocks
    have hnum_any : ∀ n : Int,
        ((∃ row ∈ P, row.number = n) ∨ ∃ b ∈ bs, b.number = n) →
        (P ++ bs.filter
          (fun x => !(P.any (fun row => row.number == x.number)))).any
          (fun row => row.number == n) = true := by
      intro n hn
      rw [List.any_append]
      rcases hn with ⟨row, hrow, hrn⟩ | ⟨b, hb, hbn⟩
      · have : P.any (fun row => row.number == n) = true := by
          rw [List.any_eq_true]
          exact ⟨row, hrow, by simp [hrn]⟩
        rw [this, Bool.true_or]
      · by_cases hfb : P.any (fun row => row.number == b.number) = true
        · obtain ⟨row, hrowP, hbeq⟩ := List.any_eq_true.mp hfb
          have : P.any (fun row => row.number == n) = true := by
            rw [List.any_eq_true]
            refine ⟨row, hrowP, ?_⟩
            simp only [beq_iff_eq] at hbeq ⊢
            rw [hbeq, hbn]
          rw [this, Bool.true_or]
        · have hmem : b ∈ bs.filter
              (fun x => !(P.any (fun row => row.number == x.number))) := by
            rw [List.mem_filter]
            refine ⟨hb, ?_⟩
            rw [Bool.not_eq_true']
            exact Bool.eq_false_iff.mpr hfb
          have : (bs.filter
              (fun x => !(P.any (fun row => row.number == x.number)))).any
              (fun row => row.number == n) = true := by
            rw [List.any_eq_true]
            exact ⟨b, hmem, by simp [hbn]⟩
          rw [this, Bool.or_true]
    obtain ⟨s2, htxrun, hb2, hl2, hpres, hall⟩ :=
      insertRows_txs_ok ts
        ⟨P ++ bs.filter
          (fun x => !(P.any (fun row => row.number == x.number))), T, Lg⟩
        httype (fun t ht => hnum_any t.block_number (htfk t ht))
    obtain ⟨s3, hlogrun, hb3, ht3⟩ :=
      insertRows_logs_ok ls s2
        (by
          intro l hl
          rcases (hlfk l hl).1 with ⟨row, hrow, hh⟩ | ⟨t, htm, hh⟩
          · apply hpres
            rw [List.any_eq_true]
            exact ⟨row, hrow, by simp [hh]⟩
          · rw [← hh]
            exact hall t htm)
        (by
          intro l hl
          rw [hb2]
          exact hnum_any l.block_number (hlfk l hl).2)
    have hrun : runSave ⟨P, T, Lg⟩ bs ts ls = .ok s3 := by
      rw [runSave_eq]
      simp only [hblocks, htxrun, hlogrun]
    have hsave : save ⟨P, T, Lg⟩ bs ts ls = (s3, none) := by
      simp only [save, hrun]
    rw [hsave]
    refine ⟨?_, ?_, ?_⟩
    · constructor
      · intro h
        exact absurd h (by simp)
      · intro hex
        exact absurd ((collides_any_iff P bs).mpr hex) hcol
    · intro e he
      exact absurd he (by simp)
    · intro _
      refine ⟨rfl, ?_⟩
      rw [hb3, hb2]

/-- C6 counterexample: inserting into an empty store one block and one
transaction whose type field is null (legal for TransactionRecord, but
the transactions.type column is INT NOT NULL) raises 23502, which the
catch block maps to ReorgDetected -- yet no inserted block number
collides with any existing row, so the claimed equivalence is false at
this input. -/
theorem save_reorg_iff_counterexample :
    ¬ (((save emptyDb [blockRecA] [txNullType] []).2
          = some SaveError.reorgDetected) ↔
       ∃ b ∈ [blockRecA], ∃ row ∈ emptyDb.blocks,
         row.number = b.number ∧ row.hash ≠ b.hash) := by
  decide

/-- Witness for C6's amended theorem: a store holding block (1, hash A)
and an insert of block (1, hash B) -- a genuine reorg collision. -/
theorem save_reorg_spec_witness :
    ((⟨[blockRecA], [], []⟩ : DbState).blocks.Pairwise
      (fun a b => a.number ≠ b.number)) ∧
    ([blockRecB].Pairwise (fun a b => a.number ≠ b.number)) ∧
    ([blockRecB].Pairwise (fun a b => a.hash ≠ b.hash)) ∧
    (∀ b ∈ [blockRecB], ∀ row ∈ (⟨[blockRecA], [], []⟩ : DbState).blocks,
      row.hash = b.hash → row.number = b.number) ∧
    (∀ t ∈ ([] : List TransactionRecord), t.type ≠ none) ∧
    (((save (⟨[blockRecA], [], []⟩ : DbState) [blockRecB] [] []).2
        = some SaveError.reorgDetected ↔
      ∃ b ∈ [blockRecB], ∃ row ∈ (⟨[blockRecA], [], []⟩ : DbState).blocks,
        row.number = b.number ∧ row.hash ≠ b.hash) ∧
    (∀ e, (save (⟨[blockRecA], [], []⟩ : DbState) [blockRecB] [] []).2 = some e →
      (save (⟨[blockRecA], [], []⟩ : DbState) [blockRecB] [] []).1
        = (⟨[blockRecA], [], []⟩ : DbState)) ∧
    ((¬ ∃ b ∈ [blockRecB], ∃ row ∈ (⟨[blockRecA], [], []⟩ : DbState).blocks,
        row.number = b.number ∧ row.hash ≠ b.hash) →
      (save (⟨[blockRecA], [], []⟩ : DbState) [blockRecB] [] []).2 = none ∧
      (save (⟨[blockRecA], [], []⟩ : DbState) [blockRecB] [] []).1.blocks
        = (⟨[blockRecA], [], []⟩ : DbState).blocks ++ [blockRecB].filter
          (fun b => !((⟨[blockRecA], [], []⟩ : DbState).blocks.any
            (fun row => row.number == b.number))))) :=
  ⟨by decide, by decide, by decide, by decide, by decide,
   save_reorg_spec ⟨[blockRecA], [], []⟩ [blockRecB] [] []
     (by decide) (by decide) (by decide) (by decide) (by decide)
     (by decide) (by decide)⟩

lemma insertRows_blocks_facts :
    ∀ (bs : List BlockRecord) (s s' : DbState),
    insertRows insertBlockRow s bs = .ok s' →
    (∃ ext, s'.blocks = s.blocks ++ ext) ∧ s'.txs = s.txs ∧ s'.logs = s.logs ∧
    (s.blocks.Pairwise (fun a b => a.number ≠ b.number) →
      s'.blocks.Pairwise (fun a b => a.number ≠ b.number)) ∧
    (∀ b ∈ bs, ∃ row ∈ s'.blocks, row.number = b.number ∧ row.hash = b.hash) := by
  intro bs
  induction bs with
  | nil =>
    intro s s' h
    simp only [insertRows] at h
    cases h
    exact ⟨⟨[], by simp⟩, rfl, rfl, fun hp => hp, by simp⟩
  | cons b rest ih =>
    intro s s' h
    simp only [insertRows] at h
    cases hstep : insertBlockRow s b with
    | error e => rw [hstep] at h; exact absurd h (by simp)
    | ok s1 =>
      simp only [hstep] at h
      unfold insertBlockRow at hstep
      obtain ⟨⟨ext, hext⟩, htx, hlg, hpair, hrows⟩ := ih s1 s' h
      cases hfind : s.blocks.find? (fun row => row.number == b.number) with
      | some r0 =>
        simp only [hfind] at hstep
        by_cases hdiff : r0.hash = b.hash
        · rw [if_neg (by simp [hdiff])] at hstep
          cases hstep
          refine ⟨⟨ext, hext⟩, htx, hlg, hpair, ?_⟩
          intro x hx
          rcases List.mem_cons.mp hx with rfl | hx'
          · refine ⟨r0, ?_, ?_, hdiff⟩
            · rw [hext]
              exact List.mem_append_left _ (List.mem_of_find?_eq_some hfind)
            · have := List.find?_some hfind
              simpa using this
          · exact hrows x hx'
        · rw [if_pos hdiff] at hstep
          exact absurd hstep (by simp)
      | none =>
        simp only [hfind] at hstep
        by_cases hany : s.blocks.any (fun row => row.hash == b.hash) = true
        · rw [if_pos hany] at hstep
          exact absurd hstep (by simp)
        · rw [if_neg hany] at hstep
          cases hstep
          simp only at hext htx hlg hpair hrows
          refine ⟨⟨b :: ext, by rw [hext]; simp⟩, htx, hlg, ?_, ?_⟩
          · intro hp
            apply hpair
            rw [List.pairwise_append]
            refine ⟨hp, by simp, ?_⟩
            intro a ha b' hb'
            rw [List.mem_singleton] at hb'
            rw [hb']
            have := List.find?_eq_none.mp hfind a ha
            simpa using this
          · intro x hx
            rcases List.mem_cons.mp hx with rfl | hx'
            · refine ⟨x, ?_, rfl, rfl⟩
              rw [hext]
              exact List.mem_append_left _ (List.mem_append_right _ (by simp))
            · exact hrows x hx'

lemma insertRows_blocks_noop :
    ∀ (bs : List BlockRecord) (s : DbState),
    s.blocks.Pairwise (fun a b => a.number ≠ b.number) →
    (∀ b ∈ bs, ∃ row ∈ s.blocks, row.number = b.number ∧ row.hash = b.hash) →
    insertRows insertBlockRow s bs = .ok s := by
  intro bs
  induction bs with
  | nil =>
    intro s _ _
    rfl
  | cons b rest ih =>
    intro s hp hrows
    obtain ⟨row, hrow, hrn, hrh⟩ := hrows b (by simp)
    have hfindne : s.blocks.find? (fun x => x.number == b.number) ≠ none := by
      rw [Ne, List.find?_eq_none]
      push_neg
      exact ⟨row, hrow, by simp [hrn]⟩
    obtain ⟨r1, hr1⟩ := Option.ne_none_iff_exists'.mp hfindne
    have hr1mem : r1 ∈ s.blocks := List.mem_of_find?_eq_some hr1
    have hr1n : r1.number = b.number := by
      have := List.find?_some hr1
      simpa using this
    have hr1eq : r1 = row :=
      blocks_number_unique s.blocks hp r1 hr1mem row hrow (by rw [hr1n, hrn])
    have hstep : insertBlockRow s b = .ok s := by
      unfold insertBlockRow
      simp only [hr1]
      rw [if_neg (by simp [hr1eq, hrh])]
    simp only [insertRows, hstep]
    exact ih s hp (fun x hx => hrows x (by simp [hx]))

lemma insertRows_txs_facts :
    ∀ (ts : List TransactionRecord) (s s' : DbState),
    insertRows insertTxRow s ts = .ok s' →
    s'.blocks = s.blocks ∧ s'.logs = s.logs ∧
    (∃ ext, s'.txs = s.txs ++ ext) ∧
    (∀ t ∈ ts, t.type ≠ none ∧
      s'.txs.any (fun row => row.hash == t.hash) = true) := by
  intro ts
  induction ts with
  | nil =>
    intro s s' h
    simp only [insertRows] at h
    cases h
    exact ⟨rfl, rfl, ⟨[], by simp⟩, by simp⟩
  | cons t rest ih =>
    intro s s' h
    simp only [insertRows] at h
    cases hstep : insertTxRow s t with
    | error e => rw [hstep] at h; exact absurd h (by simp)
    | ok s1 =>
      rw [hstep] at h
      unfold insertTxRow at hstep
      obtain ⟨hb, hl, ⟨ext, hext⟩, hrows⟩ := ih s1 s' h
      by_cases htype : t.type = none
      · rw [if_pos htype] at hstep
        exact absurd hstep (by simp)
      · rw [if_neg htype] at hstep
        by_cases hdup : s.txs.any (fun row => row.hash == t.hash) = true
        · rw [if_pos hdup] at hstep
          cases hstep
          refine ⟨hb, hl, ⟨ext, hext⟩, ?_⟩
          intro x hx
          rcases List.mem_cons.mp hx with rfl | hx'
          · refine ⟨htype, ?_⟩
            rw [hext, List.any_append, hdup, Bool.true_or]
          · exact hrows x hx'
        · rw [if_neg hdup] at hstep
          by_cases hfk : s.blocks.any (fun row => row.number == t.block_number) = true
          · rw [if_pos hfk] at hstep
            cases hstep
            simp only at hb hl hext hrows
            refine ⟨hb, hl, ⟨t :: ext, by rw [hext]; simp⟩, ?_⟩
            intro x hx
            rcases List.mem_cons.mp hx with rfl | hx'
            · refine ⟨htype, ?_⟩
              rw [hext, List.any_append]
              have h1 : (s.txs ++ [x]).any (fun row => row.hash == x.hash) = true := by
                rw [List.any_append]
                simp
              rw [h1, Bool.true_or]
            · exact hrows x hx'
          · rw [if_neg hfk] at hstep
            exact absurd hstep (by simp)

lemma insertRows_txs_noop :
    ∀ (ts : List TransactionRecord) (s : DbState),
    (∀ t ∈ ts, t.type ≠ none ∧
      s.txs.any (fun row => row.hash == t.hash) = true) →
    insertRows insertTxRow s ts = .ok s := by
  intro ts
  induction ts with
  | nil => intro s _; rfl
  | cons t rest ih =>
    intro s hrows
    obtain ⟨htype, hdup⟩ := hrows t (by simp)
    have hstep : insertTxRow s t = .ok s := by
      unfold insertTxRow
      rw [if_neg htype, if_pos hdup]
    simp only [insertRows, hstep]
    exact ih s (fun x hx => hrows x (by simp [hx]))

lemma insertRows_logs_facts :
    ∀ (ls : List LogRecord) (s s' : DbState),
    insertRows insertLogRow s ls = .ok s' →
    s'.blocks = s.blocks ∧ s'.txs = s.txs ∧
    (∃ ext, s'.logs = s.logs ++ ext) ∧
    (∀ l ∈ ls, s'.logs.any (fun row =>
      row.transaction_hash == l.transaction_hash
      && row.log_index == l.log_index) = true) := by
  intro ls
  induction ls with
  | nil =>
    intro s s' h
    simp only [insertRows] at h
    cases h
    exact ⟨rfl, rfl, ⟨[], by simp⟩, by simp⟩
  | cons l rest ih =>
    intro s s' h
    simp only [insertRows] at h
    cases hstep : insertLogRow s l with
    | error e => rw [hstep] at h; exact absurd h (by simp)
    | ok s1 =>
      rw [hstep] at h
      unfold insertLogRow at hstep
      obtain ⟨hb, ht, ⟨ext, hext⟩, hrows⟩ := ih s1 s' h
      by_cases hdup : s.logs.any (fun row =>
          row.transaction_hash == l.transaction_hash
          && row.log_index == l.log_index) = true
      · rw [if_pos hdup] at hstep
        cases hstep
        refine ⟨hb, ht, ⟨ext, hext⟩, ?_⟩
        intro x hx
        rcases List.mem_cons.mp hx with rfl | hx'
        · rw [hext, List.any_append, hdup, Bool.true_or]
        · exact hrows x hx'
      · rw [if_neg hdup] at hstep
        by_cases htx : s.txs.any (fun row => row.hash == l.transaction_hash) = true
        · rw [if_pos htx] at hstep
          by_cases hbk : s.blocks.any (fun row => row.number == l.block_number) = true
          · rw [if_pos hbk] at hstep
            cases hstep
            simp only at hb ht hext hrows
            refine ⟨hb, ht, ⟨l :: ext, by rw [hext]; simp⟩, ?_⟩
            intro x hx
            rcases List.mem_cons.mp hx with rfl | hx'
            · rw [hext, List.any_append]
              have h1 : (s.logs ++ [x]).any (fun row =>
                  row.transaction_hash == x.transaction_hash
                  && row.log_index == x.log_index) = true := by
                rw [List.any_append]
                simp
              rw [h1, Bool.true_or]
            · exact hrows x hx'
          · rw [if_neg hbk] at hstep
            exact absurd hstep (by simp)
        · rw [if_neg htx] at hstep
          exact absurd hstep (by simp)

lemma insertRows_logs_noop :
    ∀ (ls : List LogRecord) (s : DbState),
    (∀ l ∈ ls, s.logs.any (fun row =>
      row.transaction_hash == l.transaction_hash
      && row.log_index == l.log_index) = true) →
    insertRows insertLogRow s ls = .ok s := by
  intro ls
  induction ls with
  | nil => intro s _; rfl
  | cons l rest ih =>
    intro s hrows
    have hstep : insertLogRow s l = .ok s := by
      unfold insertLogRow
      rw [if_pos (hrows l (by simp))]
    simp only [insertRows, hstep]
    exact ih s (fun x hx => hrows x (by simp [hx]))

/-- C7: save is idempotent -- when a save succeeds (and the stored
blocks satisfy their primary-key invariant of pairwise-distinct
numbers), repeating it with the same records succeeds and leaves the
store exactly as after the first call, every conflicting insert doing
nothing. -/
theorem save_idempotent (s : DbState) (bs : List BlockRecord)
    (ts : List TransactionRecord) (ls : List LogRecord)
    (hPnum : s.blocks.Pairwise (fun a b => a.number ≠ b.number))
    (hok : (save s bs ts ls).2 = none) :
    save (save s bs ts ls).1 bs ts ls = ((save s bs ts ls).1, none) := by
  have hrunex : ∃ s3, runSave s bs ts ls = .ok s3 := by
    cases h : runSave s bs ts ls with
    | ok s3 => exact ⟨s3, rfl⟩
    | error e =>
      exfalso
      cases e <;> simp [save, h] at hok
  obtain ⟨s3, hrun⟩ := hrunex
  have hsave1 : save s bs ts ls = (s3, none) := by
    simp only [save, hrun]
  rw [runSave_eq] at hrun
  cases hb1 : insertRows insertBlockRow s bs with
  | error e =>
    simp only [hb1] at hrun
    exact absurd hrun (by simp)
  | ok s1 =>
    simp only [hb1] at hrun
    cases ht1 : insertRows insertTxRow s1 ts with
    | error e =>
      simp only [ht1] at hrun
      exact absurd hrun (by simp)
    | ok s2 =>
      simp only [ht1] at hrun
      cases hl1 : insertRows insertLogRow s2 ls with
      | error e =>
        simp only [hl1] at hrun
        exact absurd hrun (by simp)
      | ok s3' =>
        simp only [hl1] at hrun
        have hs3 : s3' = s3 := by
          injection hrun
        subst hs3
        obtain ⟨⟨extb, hextb⟩, htxb, hlgb, hpairb, hrowsb⟩ :=
          insertRows_blocks_facts bs s s1 hb1
        obtain ⟨hbt, hlt, ⟨extt, hextt⟩, hrowst⟩ :=
          insertRows_txs_facts ts s1 s2 ht1
        obtain ⟨hbl, htl, ⟨extl, hextl⟩, hrowsl⟩ :=
          insertRows_logs_facts ls s2 s3' hl1
        have hpair3 : s3'.blocks.Pairwise (fun a b => a.number ≠ b.number) := by
          rw [hbl, hbt]
          exact hpairb hPnum
        have hnoopB : insertRows insertBlockRow s3' bs = .ok s3' := by
          apply insertRows_blocks_noop bs s3' hpair3
          intro b hbmem
          obtain ⟨row, hrow, hn, hh⟩ := hrowsb b hbmem
          refine ⟨row, ?_, hn, hh⟩
          rw [hbl, hbt]
          exact hrow
        have hnoopT : insertRows insertTxRow s3' ts = .ok s3' := by
          apply insertRows_txs_noop
          intro t htm
          obtain ⟨hty, hany⟩ := hrowst t htm
          refine ⟨hty, ?_⟩
          rw [htl]
          exact hany
        have hnoopL : insertRows insertLogRow s3' ls = .ok s3' := by
          apply insertRows_logs_noop
          intro l hlm
          exact hrowsl l hlm
        have hrun2 : runSave s3' bs ts ls = .ok s3' := by
          rw [runSave_eq]
          simp only [hnoopB, hnoopT, hnoopL]
        rw [hsave1]
        simp only [save, hrun2]

/-- Witness for C7: saving one block into the empty store twice. -/
theorem save_idempotent_witness :
    (emptyDb.blocks.Pairwise (fun a b => a.number ≠ b.number)) ∧
    ((save emptyDb [blockRecA] [] []).2 = none) ∧
    save (save emptyDb [blockRecA] [] []).1 [blockRecA] [] []
      = ((save emptyDb [blockRecA] [] []).1, none) :=
  ⟨by decide, by decide,
   save_idempotent emptyDb [blockRecA] [] [] (by decide) (by decide)⟩
